import Mathlib

/-!
# Deque (`src/deque.hpp`): a shallow embedding and its verified properties

The container is a map (`T** container_`) of fixed-size buckets, two cursors and a size.
The embedding keeps the seven data members under their source names.

* A bucket is a list of `kBucketSize` slots; a slot is `none` when it holds no live
  object (raw storage, or an element that has been destroyed) and `some v` otherwise.
* The map is `Option (List (Bucket α))`; `none` is the null pointer.
* An operation returns `none` when the C++ code would touch memory it does not own
  (null map, bucket index past the end of the map, slot past the end of a bucket) or
  read a slot that holds no live object: the behaviour is undefined there.
* `size_t` members are natural numbers.  Subtractions that can wrap are written with
  `sub_size_t`, which wraps modulo `2^64`; additions are left unbounded (a counter
  would need `2^64` elements to overflow).
* The iterator keeps its two `int` members as integers; division and remainder on
  them are the truncating C++ ones (`Int.tdiv`, `Int.tmod`).  The flattened coordinate
  `bucket_number_ * kBucketSize + position_` that the comparison operators and the
  iterator difference compute is an `int` of 32 bits: `int_result` gives `none` when
  such a computation overflows, which C++ leaves undefined.  This is what bounds the
  container: the product overflows from bucket index `2^26`.
* Allocators are stateless handles and are not part of the state.  Allocation and
  element construction succeed in every operation except the three that model a
  failure: `emplace_back_construct_throws`, `emplace_front_construct_throws` and
  `reallocation_with_allocator`, whose result is an `Outcome`.
-/

/-- The constant `static const short int kBucketSize = 32;`. -/
def kBucketSize : Nat := 32

/-- Subtraction of two `size_t` values (64-bit, wrapping on underflow). -/
def sub_size_t (a b : Nat) : Nat :=
  if b ≤ a then a - b else a + 2 ^ 64 - b

/-- One bucket: `kBucketSize` slots of storage for `T`. -/
abbrev Bucket (α : Type) := List (Option α)

/-- The result of `allocator_traits::allocate(alloc_, kBucketSize)`: raw storage. -/
def fresh_bucket {α : Type} : Bucket α := List.replicate kBucketSize none

/-- The data members of `class Deque` (lines 70-76), allocators apart. -/
structure Deque (α : Type) where
  container_capacity_ : Nat
  size_ : Nat
  container_ : Option (List (Bucket α))
  first_element_bucket_ : Nat
  first_element_position_ : Nat
  last_element_bucket_ : Nat
  last_element_position_ : Nat
deriving DecidableEq, Repr

/-- The members of `class Iterator` (lines 624-626).  The map pointer `ptr_` is not
stored: an iterator is dereferenced against the deque whose map it points into. -/
structure Iterator where
  bucket_number_ : Int
  position_ : Int
deriving DecidableEq, Repr

/-- The four end operations, as data, for replaying sequences of calls. -/
inductive Op (α : Type) where
  | push_back (v : α)
  | push_front (v : α)
  | pop_back
  | pop_front
deriving DecidableEq, Repr

/-- The exception thrown by `at`. -/
inductive DequeException where
  | out_of_range
deriving DecidableEq, Repr

namespace Deque

variable {α : Type}

/-- Constructor `Deque() = default;` with the default member initialisers of lines 70-76. -/
def default_ctor : Deque α :=
  { container_capacity_ := 0
    size_ := 0
    container_ := none
    first_element_bucket_ := 0
    first_element_position_ := 2
    last_element_bucket_ := 0
    last_element_position_ := 2 }

/-- The rvalue `container_[b][p]`: the live object in slot `p` of bucket `b`. -/
def slot (d : Deque α) (b p : Nat) : Option α :=
  match d.container_ with
  | none => none
  | some m =>
    match m[b]? with
    | none => none
    | some bucket =>
      match bucket[p]? with
      | none => none
      | some s => s

/-- Overwrite the slot `container_[b] + p` (construct, destroy or assign there). -/
def store (d : Deque α) (b p : Nat) (s : Option α) : Option (Deque α) :=
  match d.container_ with
  | none => none
  | some m =>
    match m[b]? with
    | none => none
    | some bucket =>
      if p < bucket.length then
        some { d with container_ := some (m.set b (bucket.set p s)) }
      else none

/-- Member `size()` (line 376). -/
def size (d : Deque α) : Nat := d.size_

/-- Member `empty()` (line 381). -/
def empty (d : Deque α) : Bool := d.size_ == 0

/-- The (bucket, offset) that `operator[]` resolves `ind` to (lines 387-392). -/
def operator_subscript_ref (d : Deque α) (ind : Nat) : Nat × Nat :=
  if ind ≤ sub_size_t (sub_size_t kBucketSize d.first_element_position_) 1 then
    (d.first_element_bucket_, d.first_element_position_ + ind)
  else
    let ind := sub_size_t ind (sub_size_t kBucketSize d.first_element_position_)
    (d.first_element_bucket_ + 1 + ind / kBucketSize, ind % kBucketSize)

/-- Member `operator[]` (line 386), read as a value. -/
def operator_subscript (d : Deque α) (ind : Nat) : Option α :=
  d.slot (d.operator_subscript_ref ind).1 (d.operator_subscript_ref ind).2

/-- Member `at` (line 406): the reference it returns or the exception it throws, together
with the state of the deque after the call. -/
def at_ (d : Deque α) (ind : Nat) : Except DequeException (Nat × Nat) × Deque α :=
  if ind ≥ d.size_ then
    (Except.error DequeException.out_of_range, d)
  else if ind ≤ sub_size_t (sub_size_t kBucketSize d.first_element_position_) 1 then
    (Except.ok (d.first_element_bucket_, d.first_element_position_ + ind), d)
  else
    let ind := sub_size_t ind (sub_size_t kBucketSize d.first_element_position_)
    (Except.ok (d.first_element_bucket_ + 1 + ind / kBucketSize, ind % kBucketSize), d)

/-- The reads `container_[0]`, ..., `container_[n-1]` of the second loop of
`reallocation` (line 447). -/
def moved_buckets (d : Deque α) : Nat → Option (List (Bucket α))
  | 0 => some []
  | n + 1 =>
    match moved_buckets d n, d.container_ with
    | some front, some m =>
      match m[n]? with
      | some bucket => some (front ++ [bucket])
      | none => none
    | _, _ => none

/-- Member `reallocation` (line 432), every allocation succeeding. -/
def reallocation (d : Deque α) : Option (Deque α) :=
  let new_container_capacity := d.container_capacity_ * 3 + 1
  match d.moved_buckets d.container_capacity_ with
  | none => none
  | some moved =>
    some { d with
      first_element_bucket_ := d.container_capacity_ + d.first_element_bucket_
      last_element_bucket_ := d.container_capacity_ + d.last_element_bucket_
      container_capacity_ := new_container_capacity
      container_ := some (List.replicate d.container_capacity_ fresh_bucket ++ moved ++
        List.replicate (new_container_capacity - 2 * d.container_capacity_) fresh_bucket) }

/-- The growth check of `emplace_back` (lines 525-529). -/
def grow_back (d : Deque α) : Option (Deque α) :=
  if d.container_capacity_ = 0 ∨
      (d.last_element_bucket_ = sub_size_t d.container_capacity_ 1 ∧
        d.last_element_position_ = kBucketSize - 1) then
    d.reallocation
  else some d

/-- The cursor step of `emplace_back` (lines 531-538). -/
def advance_back (d : Deque α) : Deque α :=
  if !d.empty then
    if d.last_element_position_ = kBucketSize - 1 then
      { d with last_element_bucket_ := d.last_element_bucket_ + 1, last_element_position_ := 0 }
    else
      { d with last_element_position_ := d.last_element_position_ + 1 }
  else d

/-- Member `emplace_back` (line 524) when the construction of the element succeeds. -/
def emplace_back (d : Deque α) (v : α) : Option (Deque α) :=
  match d.grow_back with
  | none => none
  | some d1 =>
    let d2 := d1.advance_back
    match d2.store d2.last_element_bucket_ d2.last_element_position_ (some v) with
    | none => none
    | some d3 => some { d3 with size_ := d3.size_ + 1 }

/-- Member `push_back` (lines 473 and 478). -/
def push_back (d : Deque α) (v : α) : Option (Deque α) := d.emplace_back v

/-- Member `pop_back` (line 483). -/
def pop_back (d : Deque α) : Option (Deque α) :=
  match d.store d.last_element_bucket_ d.last_element_position_ none with
  | none => none
  | some d1 =>
    let d2 := { d1 with size_ := sub_size_t d1.size_ 1 }
    if !d2.empty then
      if d2.last_element_position_ = 0 then
        some { d2 with
          last_element_bucket_ := sub_size_t d2.last_element_bucket_ 1
          last_element_position_ := kBucketSize - 1 }
      else
        some { d2 with last_element_position_ := sub_size_t d2.last_element_position_ 1 }
    else some d2

/-- The growth check of `emplace_front` (lines 559-562). -/
def grow_front (d : Deque α) : Option (Deque α) :=
  if d.container_capacity_ = 0 ∨
      (d.first_element_bucket_ = 0 ∧ d.first_element_position_ = 0) then
    d.reallocation
  else some d

/-- The cursor step of `emplace_front` (lines 564-571). -/
def retreat_front (d : Deque α) : Deque α :=
  if !d.empty then
    if d.first_element_position_ = 0 then
      { d with
        first_element_position_ := kBucketSize - 1
        first_element_bucket_ := sub_size_t d.first_element_bucket_ 1 }
    else
      { d with first_element_position_ := sub_size_t d.first_element_position_ 1 }
  else d

/-- Member `emplace_front` (line 558) when the construction of the element succeeds. -/
def emplace_front (d : Deque α) (v : α) : Option (Deque α) :=
  match d.grow_front with
  | none => none
  | some d1 =>
    let d2 := d1.retreat_front
    match d2.store d2.first_element_bucket_ d2.first_element_position_ (some v) with
    | none => none
    | some d3 => some { d3 with size_ := d3.size_ + 1 }

/-- Member `push_front` (lines 498 and 503). -/
def push_front (d : Deque α) (v : α) : Option (Deque α) := d.emplace_front v

/-- Member `pop_front` (line 508). -/
def pop_front (d : Deque α) : Option (Deque α) :=
  match d.store d.first_element_bucket_ d.first_element_position_ none with
  | none => none
  | some d1 =>
    let d2 := { d1 with size_ := sub_size_t d1.size_ 1 }
    if !d2.empty then
      if d2.first_element_position_ = kBucketSize - 1 then
        some { d2 with
          first_element_bucket_ := d2.first_element_bucket_ + 1
          first_element_position_ := 0 }
      else
        some { d2 with first_element_position_ := d2.first_element_position_ + 1 }
    else some d2

/-- One call of an end operation. -/
def step (d : Deque α) : Op α → Option (Deque α)
  | Op.push_back v => d.push_back v
  | Op.push_front v => d.push_front v
  | Op.pop_back => d.pop_back
  | Op.pop_front => d.pop_front

/-- A sequence of calls, applied from left to right. -/
def run (d : Deque α) : List (Op α) → Option (Deque α)
  | [] => some d
  | op :: ops =>
    match d.step op with
    | none => none
    | some d1 => run d1 ops

/-- The values `operator[]` reads at the indices `0 .. size() - 1`. -/
def to_list (d : Deque α) : List (Option α) :=
  (List.range d.size_).map d.operator_subscript

end Deque

/-- The result of a computation in the 32-bit `int` of the source: the value when it
is representable, `none` when the computation overflows (signed overflow is undefined
behaviour in C++). -/
def int_result (x : Int) : Option Int :=
  if -2147483648 ≤ x ∧ x ≤ 2147483647 then some x else none

namespace Iterator

/-- The constructor `Iterator(T** ptr, size_t bucket_number, size_t position)`
(line 882); `static_cast<int>` is the identity on the coordinates of a map with
fewer than `2^31` slots. -/
def ctor (bucket_number position : Nat) : Iterator :=
  { bucket_number_ := (bucket_number : Int), position_ := (position : Int) }

/-- Member `operator++()` (line 870). -/
def operator_inc (it : Iterator) : Iterator :=
  if it.position_ ≠ (kBucketSize : Int) - 1 then
    { it with position_ := it.position_ + 1 }
  else
    { position_ := 0, bucket_number_ := it.bucket_number_ + 1 }

/-- Member `operator--()` (line 857). -/
def operator_dec (it : Iterator) : Iterator :=
  if it.position_ ≠ 0 then
    { it with position_ := it.position_ - 1 }
  else
    { position_ := (kBucketSize : Int) - 1, bucket_number_ := it.bucket_number_ - 1 }

/-- Member `operator+=(int number)` (line 793). -/
def operator_add_assign (it : Iterator) (number : Int) : Iterator :=
  if it.position_ + number < (kBucketSize : Int) then
    { it with position_ := it.position_ + number }
  else
    let number := number - ((kBucketSize : Int) - it.position_)
    { bucket_number_ := it.bucket_number_ + (1 + Int.tdiv number (kBucketSize : Int))
      position_ := Int.tmod number (kBucketSize : Int) }

/-- Member `operator-=(int number)` (line 807). -/
def operator_sub_assign (it : Iterator) (number : Int) : Iterator :=
  if number ≤ it.position_ then
    { it with position_ := it.position_ - number }
  else
    let number := number - (it.position_ + 1)
    { bucket_number_ := it.bucket_number_ - (1 + Int.tdiv number (kBucketSize : Int))
      position_ := (kBucketSize : Int) - 1 - Int.tmod number (kBucketSize : Int) }

/-- Member `operator-(int number) const` (line 821). -/
def operator_sub (it : Iterator) (number : Int) : Iterator :=
  it.operator_sub_assign number

/-- Member `operator+(int number) const` (line 830). -/
def operator_add (it : Iterator) (number : Int) : Iterator :=
  it.operator_add_assign number

/-- The `int` expression `bucket_number_ * kBucketSize + position_` that `operator==`
(lines 750-751), `operator<` (lines 758-759) and `operator-` (lines 634-635) evaluate
for each of their two operands: first the product, then the sum, both in `int`. -/
def flattened (it : Iterator) : Option Int :=
  match int_result (it.bucket_number_ * (kBucketSize : Int)) with
  | none => none
  | some product => int_result (product + it.position_)

/-- Member `operator==` (line 748). -/
def operator_eq (it other : Iterator) : Option Bool :=
  match it.flattened, other.flattened with
  | some a, some b => some (a == b)
  | _, _ => none

/-- Member `operator<` (line 756). -/
def operator_lt (it other : Iterator) : Option Bool :=
  match it.flattened, other.flattened with
  | some a, some b => some (decide (a < b))
  | _, _ => none

/-- Member `operator>` (line 764). -/
def operator_gt (it other : Iterator) : Option Bool := other.operator_lt it

/-- Member `operator!=` (line 785). -/
def operator_ne (it other : Iterator) : Option Bool :=
  match it.operator_eq other with
  | some b => some (!b)
  | none => none

/-- Member `operator-(const Iterator&)` (line 632): both flattened coordinates and
their difference are computed in `int`. -/
def operator_diff (it other : Iterator) : Option Int :=
  match it.flattened, other.flattened with
  | some a, some b => int_result (a - b)
  | _, _ => none

/-- The number of slots from `other` up to `it` (zero when `it` is not after `other`),
as a natural number.  It is not a member of the source: it bounds the number of
iterations of the loops of `insert` and `erase`. -/
def distance (it other : Iterator) : Nat :=
  (it.bucket_number_ * (kBucketSize : Int) + it.position_ -
    (other.bucket_number_ * (kBucketSize : Int) + other.position_)).toNat

/-- Member `operator*` (line 742), read as a value: `ptr_[bucket_number_][position_]`. -/
def operator_deref {α : Type} (it : Iterator) (d : Deque α) : Option α :=
  if 0 ≤ it.bucket_number_ ∧ 0 ≤ it.position_ then
    d.slot it.bucket_number_.toNat it.position_.toNat
  else none

/-- An assignment `*it = v` through the reference `operator*` returns. -/
def assign {α : Type} (it : Iterator) (d : Deque α) (v : α) : Option (Deque α) :=
  if 0 ≤ it.bucket_number_ ∧ 0 ≤ it.position_ then
    d.store it.bucket_number_.toNat it.position_.toNat (some v)
  else none

end Iterator

/-- The adaptor `std::reverse_iterator<Iterator>` of the standard library: it wraps
the forward iterator `current`. -/
structure ReverseIterator where
  current : Iterator
deriving DecidableEq, Repr

namespace ReverseIterator

/-- The standard `operator*`: `Iterator tmp = current; return *--tmp;`. -/
def operator_deref {α : Type} (r : ReverseIterator) (d : Deque α) : Option α :=
  r.current.operator_dec.operator_deref d

/-- The standard `operator++`: `--current`. -/
def operator_inc (r : ReverseIterator) : ReverseIterator :=
  { current := r.current.operator_dec }

/-- The standard `operator==`: the wrapped iterators compare equal. -/
def operator_eq (r other : ReverseIterator) : Option Bool :=
  r.current.operator_eq other.current

end ReverseIterator

namespace Deque

variable {α : Type}

/-- Member `begin()` (line 735). -/
def begin (d : Deque α) : Iterator :=
  Iterator.ctor d.first_element_bucket_ d.first_element_position_

/-- Member `cbegin()` (line 728). -/
def cbegin (d : Deque α) : Iterator :=
  Iterator.ctor d.first_element_bucket_ d.first_element_position_

/-- Member `end()` (line 720). -/
def end_ (d : Deque α) : Iterator :=
  if d.empty then
    Iterator.ctor d.last_element_bucket_ d.last_element_position_
  else
    Iterator.ctor d.last_element_bucket_ (d.last_element_position_ + 1)

/-- Member `cend()` (line 710). -/
def cend (d : Deque α) : Iterator :=
  if d.empty then
    Iterator.ctor d.last_element_bucket_ d.last_element_position_
  else
    Iterator.ctor d.last_element_bucket_ (d.last_element_position_ + 1)

/-- Member `rbegin()` (line 705). -/
def rbegin (d : Deque α) : ReverseIterator := { current := d.end_ }

/-- Member `rend()` (line 700). -/
def rend (d : Deque α) : ReverseIterator := { current := d.begin }

/-- Call `std::swap(*a, *b)` on two iterators into the deque. -/
def swap_values (d : Deque α) (a b : Iterator) : Option (Deque α) :=
  match a.operator_deref d, b.operator_deref d with
  | some x, some y =>
    match a.assign d y with
    | none => none
    | some d1 => b.assign d1 x
  | _, _ => none

/-- The loop `while (iter_2 > iter)` of `insert` (lines 661-664); the first argument
bounds the number of iterations. -/
def insert_loop (iter : Iterator) : Nat → Deque α → Iterator → Option (Deque α)
  | 0, _, _ => none
  | fuel + 1, d, iter_2 =>
    match iter_2.operator_gt iter with
    | none => none
    | some true =>
      match d.swap_values (iter_2.operator_sub 1) iter_2 with
      | none => none
      | some d1 => insert_loop iter fuel d1 iter_2.operator_dec
    | some false => some d

/-- Member `insert(iterator iter, const T& value)` (line 654). -/
def insert (d : Deque α) (iter : Iterator) (value : α) : Option (Deque α) :=
  if d.empty then
    d.push_back value
  else
    let iter_2 := d.end_.operator_sub 1
    match iter_2.operator_deref d with
    | none => none
    | some last_element =>
      match iter_2.assign d value with
      | none => none
      | some d1 =>
        match insert_loop iter (iter_2.distance iter + 1) d1 iter_2 with
        | none => none
        | some d2 =>
          match d2.push_back last_element with
          | none => none
          | some d3 => d3.swap_values (d3.end_.operator_sub 2) (d3.end_.operator_sub 1)

/-- Member `emplace(iterator iter, T&& value)` (line 671). -/
def emplace (d : Deque α) (iter : Iterator) (value : α) : Option (Deque α) :=
  if d.empty then
    d.push_back value
  else
    let iter_2 := d.end_.operator_sub 1
    match iter_2.operator_deref d with
    | none => none
    | some last_element =>
      match iter_2.assign d value with
      | none => none
      | some d1 =>
        match insert_loop iter (iter_2.distance iter + 1) d1 iter_2 with
        | none => none
        | some d2 =>
          match d2.push_back last_element with
          | none => none
          | some d3 => d3.swap_values (d3.end_.operator_sub 2) (d3.end_.operator_sub 1)

/-- The loop `for (auto position = iter; position != end() - 1; ++position)` of
`erase` (lines 647-649); the first argument bounds the number of iterations. -/
def erase_loop (iter : Iterator) : Nat → Deque α → Iterator → Option (Deque α)
  | 0, _, _ => none
  | fuel + 1, d, position =>
    match position.operator_ne (d.end_.operator_sub 1) with
    | none => none
    | some true =>
      match d.swap_values iter (iter.operator_add 1) with
      | none => none
      | some d1 => erase_loop iter fuel d1 position.operator_inc
    | some false => some d

/-- Member `erase(iterator iter)` (line 646). -/
def erase (d : Deque α) (iter : Iterator) : Option (Deque α) :=
  match erase_loop iter ((d.end_.operator_sub 1).distance iter + 1) d iter with
  | none => none
  | some d1 => d1.pop_back

/-- The inner loop of the copy constructor (lines 125-129): `n` more elements are
copied from `*element` into the new bucket, starting at `position`. -/
def copy_fill (other : Deque α) :
    Nat → Bucket α → Nat → Iterator → Option (Bucket α × Iterator)
  | 0, bucket, _, element => some (bucket, element)
  | n + 1, bucket, position, element =>
    match element.operator_deref other with
    | none => none
    | some v =>
      if position < bucket.length then
        copy_fill other n (bucket.set position (some v)) (position + 1) element.operator_inc
      else none

/-- The outer loop of the copy constructor (lines 115-138): `n` more buckets are
built, starting at map index `cur_bucket`. -/
def copy_buckets (other : Deque α) (container_capacity_ size_ : Nat) :
    Nat → Nat → Iterator → Option (List (Bucket α))
  | 0, _, _ => some []
  | n + 1, cur_bucket, element =>
    let finish :=
      if cur_bucket = sub_size_t container_capacity_ 1 then
        sub_size_t size_ 1 % kBucketSize + 1
      else kBucketSize
    match copy_fill other finish fresh_bucket 0 element with
    | none => none
    | some (bucket, element1) =>
      match copy_buckets other container_capacity_ size_ n (cur_bucket + 1) element1 with
      | none => none
      | some rest => some (bucket :: rest)

/-- The copy constructor `Deque(const Deque& other)` (line 101). -/
def copy_ctor (other : Deque α) : Option (Deque α) :=
  let size_ := other.size_
  let container_capacity_ := sub_size_t other.size_ 1 / kBucketSize + 1
  match other.container_ with
  | none =>
    some { container_capacity_ := container_capacity_
           size_ := size_
           container_ := none
           first_element_bucket_ := 0
           first_element_position_ := 2
           last_element_bucket_ := 0
           last_element_position_ := 2 }
  | some _ =>
    match copy_buckets other container_capacity_ size_ container_capacity_ 0 other.cbegin with
    | none => none
    | some m =>
      some { container_capacity_ := container_capacity_
             size_ := size_
             container_ := some m
             last_element_position_ := sub_size_t size_ 1 % kBucketSize
             last_element_bucket_ := sub_size_t container_capacity_ 1
             first_element_bucket_ := 0
             first_element_position_ := 0 }

/-- The move constructor `Deque(Deque&& other)` (line 235): the new deque and the
state `other` is left in. -/
def move_ctor (other : Deque α) : Deque α × Deque α :=
  ({ container_ := other.container_
     container_capacity_ := other.container_capacity_
     size_ := other.size_
     first_element_bucket_ := other.first_element_bucket_
     first_element_position_ := other.first_element_position_
     last_element_bucket_ := other.last_element_bucket_
     last_element_position_ := other.last_element_position_ },
   { other with
     container_ := none
     container_capacity_ := 0
     size_ := 0
     first_element_bucket_ := 0
     first_element_position_ := 0
     last_element_bucket_ := 0
     last_element_position_ := 0 })

/-- The member `swap(Deque& other)` (line 323): the new `*this` and the new `other`. -/
def swap (d other : Deque α) : Deque α × Deque α :=
  ({ container_capacity_ := other.container_capacity_
     size_ := other.size_
     container_ := other.container_
     first_element_bucket_ := other.first_element_bucket_
     first_element_position_ := other.first_element_position_
     last_element_bucket_ := other.last_element_bucket_
     last_element_position_ := other.last_element_position_ },
   { container_capacity_ := d.container_capacity_
     size_ := d.size_
     container_ := d.container_
     first_element_bucket_ := d.first_element_bucket_
     first_element_position_ := d.first_element_position_
     last_element_bucket_ := d.last_element_bucket_
     last_element_position_ := d.last_element_position_ })

/-- The move assignment `operator=(Deque&& other)` (line 370): the new `*this` and
the state `other` is left in. -/
def operator_assign_move (d other : Deque α) : Deque α × Deque α :=
  d.swap other

/-- True when no `pop_back` or `pop_front` of the sequence is called on a deque
whose `empty()` is true. -/
def no_pop_on_empty (d : Deque α) : List (Op α) → Bool
  | [] => true
  | Op.push_back v :: ops =>
    match d.push_back v with
    | none => true
    | some d1 => no_pop_on_empty d1 ops
  | Op.push_front v :: ops =>
    match d.push_front v with
    | none => true
    | some d1 => no_pop_on_empty d1 ops
  | Op.pop_back :: ops =>
    !d.empty &&
      match d.pop_back with
      | none => true
      | some d1 => no_pop_on_empty d1 ops
  | Op.pop_front :: ops =>
    !d.empty &&
      match d.pop_front with
      | none => true
      | some d1 => no_pop_on_empty d1 ops

end Deque

/-- Reference model, one call: append at the end, prepend at the front, drop the
last element, drop the first element. -/
def plain_list_step {α : Type} (l : List α) : Op α → List α
  | Op.push_back v => l ++ [v]
  | Op.push_front v => v :: l
  | Op.pop_back => l.dropLast
  | Op.pop_front => l.drop 1

/-- Reference model: the sequence of calls replayed on a plain list. -/
def plain_list_run {α : Type} (l : List α) : List (Op α) → List α
  | [] => l
  | op :: ops => plain_list_run (plain_list_step l op) ops

/-- The number of pushes in a sequence of calls. -/
def count_pushes {α : Type} : List (Op α) → Nat
  | [] => 0
  | Op.push_back _ :: ops => count_pushes ops + 1
  | Op.push_front _ :: ops => count_pushes ops + 1
  | Op.pop_back :: ops => count_pushes ops
  | Op.pop_front :: ops => count_pushes ops

/-- The number of pops in a sequence of calls. -/
def count_pops {α : Type} : List (Op α) → Nat
  | [] => 0
  | Op.push_back _ :: ops => count_pops ops
  | Op.push_front _ :: ops => count_pops ops
  | Op.pop_back :: ops => count_pops ops + 1
  | Op.pop_front :: ops => count_pops ops + 1

/-- A call is a push. -/
def Op.is_push {α : Type} : Op α → Bool
  | Op.push_back _ => true
  | Op.push_front _ => true
  | Op.pop_back => false
  | Op.pop_front => false

/-- A call is a pop. -/
def Op.is_pop {α : Type} : Op α → Bool
  | Op.push_back _ => false
  | Op.push_front _ => false
  | Op.pop_back => true
  | Op.pop_front => true

namespace Deque

variable {α : Type}

/-- The value in the slot with flattened coordinate `k = bucket * 32 + offset`. -/
def flat_slot (d : Deque α) (k : Nat) : Option α := d.slot (k / 32) (k % 32)

/-- The map has `container_capacity_` buckets of `kBucketSize` slots each (and the
capacity is zero when the map is null). -/
def map_ok (d : Deque α) : Prop :=
  match d.container_ with
  | none => d.container_capacity_ = 0
  | some m => m.length = d.container_capacity_ ∧ ∀ b ∈ m, b.length = 32

/-- Representation relation: the deque `d` is well formed and holds the list `l`. -/
structure Repr (d : Deque α) (l : List α) : Prop where
  size_eq : d.size_ = l.length
  first_lt : d.first_element_position_ < 32
  last_lt : d.last_element_position_ < 32
  map_wf : d.map_ok
  bucket_ok : d.last_element_bucket_ < d.container_capacity_ ∨
    (d.container_capacity_ = 0 ∧ d.last_element_bucket_ = 0 ∧ d.size_ = 0)
  span : if d.size_ = 0 then
      d.first_element_bucket_ = d.last_element_bucket_ ∧
        d.first_element_position_ = d.last_element_position_
    else
      d.last_element_bucket_ * 32 + d.last_element_position_ + 1 =
        d.first_element_bucket_ * 32 + d.first_element_position_ + d.size_
  elems : ∀ i : Nat, i < l.length →
    d.flat_slot (d.first_element_bucket_ * 32 + d.first_element_position_ + i) = l[i]?

end Deque

/-- The normalised iterator (offset in `[0, 32)`) with flattened coordinate `k`. -/
def Iterator.of_flat (k : Nat) : Iterator :=
  { bucket_number_ := ((k / 32 : Nat) : Int), position_ := ((k % 32 : Nat) : Int) }

/-- The way a call ends: it returns, it lets an exception propagate to the caller, or
its behaviour is undefined.  The first two carry the state the deque is left in. -/
inductive Outcome (σ : Type) where
  | returned (s : σ)
  | thrown (s : σ)
  | undefined
deriving DecidableEq, Repr

/-- The calls `reallocation` makes to its two allocators, bucket deallocation included
for the accounting of what is freed. -/
inductive AllocatorCall where
  | allocate_map (n : Nat)
  | allocate_bucket
  | destroy_map_entry
  | deallocate_map (n : Nat)
  | deallocate_bucket
deriving DecidableEq, Repr

/-- A loop of `n` iterations that allocates one bucket per iteration while the
allocator still has `available` successful allocations left: the number of iterations
completed before `allocate` throws (all `n` when it does not). -/
def allocate_loop : Nat → Nat → Nat
  | 0, _ => 0
  | _ + 1, 0 => 0
  | n + 1, available + 1 => allocate_loop n available + 1

namespace Deque

variable {α : Type}

/-- The call `emplace_back` (line 524) on the path where the construction of the
element throws: the catch block of lines 542-552 destroys the target slot, steps the
back cursor back and rethrows. -/
def emplace_back_construct_throws (d : Deque α) : Outcome (Deque α) :=
  match d.grow_back with
  | none => Outcome.undefined
  | some d1 =>
    let d2 := d1.advance_back
    match d2.store d2.last_element_bucket_ d2.last_element_position_ none with
    | none => Outcome.undefined
    | some d3 =>
      if d3.last_element_position_ = 0 then
        Outcome.thrown { d3 with
          last_element_bucket_ := sub_size_t d3.last_element_bucket_ 1
          last_element_position_ := kBucketSize - 1 }
      else
        Outcome.thrown { d3 with
          last_element_position_ := sub_size_t d3.last_element_position_ 1 }

/-- The call `emplace_front` (line 558) on the path where the construction of the
element throws: the catch block of lines 575-584 destroys the target slot and steps the
front cursor forward; it has no `throw;`, so control reaches `++size_` (line 585) and
the call returns. -/
def emplace_front_construct_throws (d : Deque α) : Outcome (Deque α) :=
  match d.grow_front with
  | none => Outcome.undefined
  | some d1 =>
    let d2 := d1.retreat_front
    match d2.store d2.first_element_bucket_ d2.first_element_position_ none with
    | none => Outcome.undefined
    | some d3 =>
      let d4 :=
        if d3.first_element_position_ = kBucketSize - 1 then
          { d3 with
            first_element_bucket_ := d3.first_element_bucket_ + 1
            first_element_position_ := 0 }
        else
          { d3 with first_element_position_ := d3.first_element_position_ + 1 }
      Outcome.returned { d4 with size_ := d4.size_ + 1 }

/-- The catch block of `reallocation` (lines 456-463) with its allocator calls: one
`destroy` per filled entry of the new map, then `deallocate` of the new map, then
`throw;`.  No member of the deque has been assigned at that point. -/
def reallocation_catch (d : Deque α) (new_container_capacity allocated buckets_filled : Nat) :
    Outcome (Deque α) × List AllocatorCall :=
  (Outcome.thrown d,
    [AllocatorCall.allocate_map new_container_capacity] ++
      List.replicate allocated AllocatorCall.allocate_bucket ++
      List.replicate buckets_filled AllocatorCall.destroy_map_entry ++
      [AllocatorCall.deallocate_map new_container_capacity])

/-- The call `reallocation` (line 432) with an allocator that may fail, and the list of
allocator calls it makes.  `map_allocated` tells whether the allocation of the new map
(line 434) succeeds; `available` is the number of bucket allocations that succeed
before one throws. -/
def reallocation_with_allocator (d : Deque α) (map_allocated : Bool) (available : Nat) :
    Outcome (Deque α) × List AllocatorCall :=
  let new_container_capacity := d.container_capacity_ * 3 + 1
  if !map_allocated then (Outcome.thrown d, [])
  else
    let first := allocate_loop d.container_capacity_ available
    if first < d.container_capacity_ then
      d.reallocation_catch new_container_capacity first first
    else
      match d.moved_buckets d.container_capacity_ with
      | none => (Outcome.undefined, [])
      | some moved =>
        let last := allocate_loop (new_container_capacity - 2 * d.container_capacity_)
          (available - d.container_capacity_)
        if last < new_container_capacity - 2 * d.container_capacity_ then
          d.reallocation_catch new_container_capacity (first + last)
            (2 * d.container_capacity_ + last)
        else
          (Outcome.returned { d with
              first_element_bucket_ := d.container_capacity_ + d.first_element_bucket_
              last_element_bucket_ := d.container_capacity_ + d.last_element_bucket_
              container_capacity_ := new_container_capacity
              container_ := some (List.replicate d.container_capacity_ fresh_bucket ++ moved ++
                List.replicate (new_container_capacity - 2 * d.container_capacity_)
                  fresh_bucket) },
            [AllocatorCall.allocate_map new_container_capacity] ++
              List.replicate (first + last) AllocatorCall.allocate_bucket ++
              [AllocatorCall.deallocate_map d.container_capacity_])

/-- The inner loop of the initializer-list constructor (lines 275-279): `n` more
elements are constructed from `*value` in the new bucket, starting at `position`; the
list is what `value` has not yet passed. -/
def init_fill : Nat → Bucket α → Nat → List α → Option (Bucket α × List α)
  | 0, bucket, _, value => some (bucket, value)
  | n + 1, bucket, position, value =>
    match value with
    | [] => none
    | v :: rest =>
      if position < bucket.length then
        init_fill n (bucket.set position (some v)) (position + 1) rest
      else none

/-- The outer loop of the initializer-list constructor (lines 266-288): `n` more
buckets are built, starting at map index `cur_bucket`. -/
def init_buckets (container_capacity_ size_ : Nat) :
    Nat → Nat → List α → Option (List (Bucket α))
  | 0, _, _ => some []
  | n + 1, cur_bucket, value =>
    let border :=
      if cur_bucket = sub_size_t container_capacity_ 1 then
        sub_size_t size_ 1 % kBucketSize + 1
      else kBucketSize
    match init_fill border fresh_bucket 0 value with
    | none => none
    | some (bucket, value1) =>
      match init_buckets container_capacity_ size_ n (cur_bucket + 1) value1 with
      | none => none
      | some rest => some (bucket :: rest)

/-- The constructor `Deque(std::initializer_list<T> init, const Allocator&)`
(line 255). -/
def initializer_list_ctor (init : List α) : Option (Deque α) :=
  let size_ := init.length
  let container_capacity_ := sub_size_t init.length 1 / kBucketSize + 1
  match init_buckets container_capacity_ size_ container_capacity_ 0 init with
  | none => none
  | some m =>
    some { container_capacity_ := container_capacity_
           size_ := size_
           container_ := some m
           last_element_position_ := sub_size_t size_ 1 % kBucketSize
           last_element_bucket_ := sub_size_t container_capacity_ 1
           first_element_bucket_ := 0
           first_element_position_ := 0 }

/-- Executable form of `map_ok`. -/
def map_ok_check (d : Deque α) : Bool :=
  match d.container_ with
  | none => d.container_capacity_ == 0
  | some m => m.length == d.container_capacity_ && m.all (fun b => b.length == 32)

/-- The cursor invariant, executable: the map is well formed, both offsets are below
32, the back bucket is inside the map (or there is no map and no element), an empty
deque has its two cursors equal, and a non-empty one has exactly `size_` slots from the
front cursor to the back cursor. -/
def invariant (d : Deque α) : Bool :=
  d.map_ok_check &&
  decide (d.first_element_position_ < 32) &&
  decide (d.last_element_position_ < 32) &&
  (decide (d.last_element_bucket_ < d.container_capacity_) ||
    (d.container_capacity_ == 0 && d.last_element_bucket_ == 0 && d.size_ == 0)) &&
  (if d.size_ = 0 then
    d.first_element_bucket_ == d.last_element_bucket_ &&
      d.first_element_position_ == d.last_element_position_
  else
    d.last_element_bucket_ * 32 + d.last_element_position_ + 1 ==
      d.first_element_bucket_ * 32 + d.first_element_position_ + d.size_)

end Deque

/-- A concrete deque of integers: the state of a default-constructed deque after
`push_back(7)`. -/
def Deque.sample : Deque Int :=
  { container_capacity_ := 1
    size_ := 1
    container_ := some [(List.replicate 32 none).set 2 (some 7)]
    first_element_bucket_ := 0
    first_element_position_ := 2
    last_element_bucket_ := 0
    last_element_position_ := 2 }

/-- The state of `Deque.sample` after `reallocation`: capacity 4, the old bucket at map
index 1. -/
def Deque.sample_reallocated : Deque Int :=
  { container_capacity_ := 4
    size_ := 1
    container_ := some [fresh_bucket, (List.replicate 32 none).set 2 (some 7), fresh_bucket,
      fresh_bucket]
    first_element_bucket_ := 1
    first_element_position_ := 2
    last_element_bucket_ := 1
    last_element_position_ := 2 }

namespace Deque

variable {α : Type}

/-- The inner loop of the constructors `Deque(count)` and `Deque(count, value)`
(lines 169-172 and 211-214): `n` more elements are constructed from `value` in the new
bucket, starting at `position`. -/
def fill_bucket (value : α) : Nat → Bucket α → Nat → Option (Bucket α)
  | 0, bucket, _ => some bucket
  | n + 1, bucket, position =>
    if position < bucket.length then
      fill_bucket value n (bucket.set position (some value)) (position + 1)
    else none

/-- The outer loop of the constructors `Deque(count)` and `Deque(count, value)`
(lines 160-181 and 202-223): `n` more buckets are built, starting at map index
`cur_bucket`. -/
def fill_buckets (container_capacity_ size_ : Nat) (value : α) :
    Nat → Nat → Option (List (Bucket α))
  | 0, _ => some []
  | n + 1, cur_bucket =>
    let finish :=
      if cur_bucket = sub_size_t container_capacity_ 1 then
        sub_size_t size_ 1 % kBucketSize + 1
      else kBucketSize
    match fill_bucket value finish fresh_bucket 0 with
    | none => none
    | some bucket =>
      match fill_buckets container_capacity_ size_ value n (cur_bucket + 1) with
      | none => none
      | some rest => some (bucket :: rest)

/-- The constructor `Deque(size_t count, const T& value, const Allocator&)`
(line 193). -/
def fill_ctor (count : Nat) (value : α) : Option (Deque α) :=
  let size_ := count
  let container_capacity_ := sub_size_t count 1 / kBucketSize + 1
  match fill_buckets container_capacity_ size_ value container_capacity_ 0 with
  | none => none
  | some m =>
    some { container_capacity_ := container_capacity_
           size_ := size_
           container_ := some m
           last_element_position_ := sub_size_t count 1 % kBucketSize
           last_element_bucket_ := sub_size_t container_capacity_ 1
           first_element_bucket_ := 0
           first_element_position_ := 0 }

/-- The constructor `Deque(size_t count, const Allocator&)` (line 151).  Its body is
that of `Deque(count, value)` with every element value-initialised; `value_init` is
the value of `T()`. -/
def count_ctor (count : Nat) (value_init : α) : Option (Deque α) :=
  let size_ := count
  let container_capacity_ := sub_size_t count 1 / kBucketSize + 1
  match fill_buckets container_capacity_ size_ value_init container_capacity_ 0 with
  | none => none
  | some m =>
    some { container_capacity_ := container_capacity_
           size_ := size_
           container_ := some m
           last_element_position_ := sub_size_t count 1 % kBucketSize
           last_element_bucket_ := sub_size_t container_capacity_ 1
           first_element_bucket_ := 0
           first_element_position_ := 0 }

/-- The loop of the copy assignment (lines 349-352): `n` more elements of `other` are
read through `other_element` and pushed at the back of `*this`. -/
def copy_assign_push_loop (other : Deque α) : Nat → Deque α → Iterator → Option (Deque α)
  | 0, d, _ => some d
  | n + 1, d, other_element =>
    match other_element.operator_deref other with
    | none => none
    | some v =>
      match d.push_back v with
      | none => none
      | some d1 => copy_assign_push_loop other n d1 other_element.operator_inc

/-- The loop `for (size_t i = 0; i < old_size; ++i) pop_front();` of the copy
assignment (lines 361-363). -/
def pop_front_loop : Nat → Deque α → Option (Deque α)
  | 0, d => some d
  | n + 1, d =>
    match d.pop_front with
    | none => none
    | some d1 => pop_front_loop n d1

/-- The copy assignment `operator=(const Deque& other)` (line 336), no construction or
allocation failing: the new `*this` and `other`.  `same_object` tells whether
`this == &other`. -/
def operator_assign_copy (d other : Deque α) (same_object : Bool) :
    Option (Deque α × Deque α) :=
  if !same_object then
    let old_size := d.size_
    match copy_assign_push_loop other other.size_ d other.cbegin with
    | none => none
    | some d1 =>
      match pop_front_loop old_size d1 with
      | none => none
      | some d2 => some (d2, other)
  else some (d, other)

end Deque

/-- True when the deque a sequence of calls reaches from a default-constructed one
has the flattened coordinate of `end()`, at most
`last_element_bucket_ * 32 + last_element_position_ + 1`, among the values of the
32-bit `int` the iterators compute with. -/
def Deque.reaches_within_int {α : Type} (ops : List (Op α)) : Bool :=
  match (Deque.default_ctor : Deque α).run ops with
  | none => false
  | some d => decide (d.last_element_bucket_ * 32 + d.last_element_position_ + 1 < 2 ^ 31)

/-- A concrete deque of integers: the result of `Deque(70, 5)`, three buckets, the
last one holding six elements. -/
def Deque.sample_seventy : Deque Int :=
  { container_capacity_ := 3
    size_ := 70
    container_ := some [List.replicate 32 (some 5), List.replicate 32 (some 5),
      List.replicate 6 (some 5) ++ List.replicate 26 none]
    first_element_bucket_ := 0
    first_element_position_ := 0
    last_element_bucket_ := 2
    last_element_position_ := 5 }

namespace Deque

variable {α : Type}

theorem kBucketSize_eq : kBucketSize = 32 := rfl

theorem sub_size_t_of_le {a b : Nat} (h : b ≤ a) : sub_size_t a b = a - b := by
  simp [sub_size_t, h]

theorem store_some {d : Deque α} {m : List (Bucket α)} {b p : Nat} (s : Option α)
    (hm : d.container_ = some m) (hb : b < m.length) (hp : p < (m[b]).length) :
    d.store b p s = some { d with container_ := some (m.set b ((m[b]).set p s)) } := by
  unfold store
  simp only [hm]
  have : m[b]? = some (m[b]) := List.getElem?_eq_getElem hb
  simp only [this]
  simp [hp]

theorem slot_set {d : Deque α} {m : List (Bucket α)} {b p : Nat} (s : Option α)
    (hm : d.container_ = some m) (hb : b < m.length) (hp : p < (m[b]).length)
    (b1 p1 : Nat) :
    ({ d with container_ := some (m.set b ((m[b]).set p s)) } : Deque α).slot b1 p1 =
      if b1 = b ∧ p1 = p then s else d.slot b1 p1 := by
  unfold slot
  simp only [hm]
  by_cases hbb : b1 = b
  · subst hbb
    by_cases hpp : p1 = p
    · subst hpp
      simp [hb, hp, List.getElem?_eq_getElem]
    · have hpp2 : ¬ p = p1 := fun h => hpp h.symm
      simp [hb, hpp, List.getElem?_set, hpp2, List.getElem?_eq_getElem]
  · have hbb2 : ¬ b = b1 := fun h => hbb h.symm
    simp [hbb, List.getElem?_set, hbb2]

end Deque

namespace Deque

variable {α : Type}

theorem store_spec {d : Deque α} (hok : d.map_ok) {b p : Nat} (s : Option α)
    (hb : b < d.container_capacity_) (hp : p < 32) :
    ∃ d1 : Deque α, d.store b p s = some d1 ∧
      d1.container_capacity_ = d.container_capacity_ ∧ d1.size_ = d.size_ ∧
      d1.first_element_bucket_ = d.first_element_bucket_ ∧
      d1.first_element_position_ = d.first_element_position_ ∧
      d1.last_element_bucket_ = d.last_element_bucket_ ∧
      d1.last_element_position_ = d.last_element_position_ ∧
      d1.map_ok ∧
      ∀ k : Nat, d1.flat_slot k = if k = b * 32 + p then s else d.flat_slot k := by
  unfold map_ok at hok
  cases hm : d.container_ with
  | none =>
    rw [hm] at hok
    omega
  | some m =>
    rw [hm] at hok
    obtain ⟨hlen, hall⟩ := hok
    have hb2 : b < m.length := by omega
    have hp2 : p < (m[b]).length := by
      rw [hall _ (List.getElem_mem hb2)]
      exact hp
    refine ⟨_, store_some s hm hb2 hp2, rfl, rfl, rfl, rfl, rfl, rfl, ?_, ?_⟩
    · unfold map_ok
      simp only [List.length_set]
      refine ⟨hlen, ?_⟩
      intro bk hbk
      rcases List.mem_or_eq_of_mem_set hbk with h | h
      · exact hall _ h
      · rw [h, List.length_set]
        exact hall _ (List.getElem_mem hb2)
    · intro k
      unfold flat_slot
      rw [slot_set s hm hb2 hp2]
      by_cases hk : k = b * 32 + p
      · have h1 : k / 32 = b ∧ k % 32 = p := by omega
        rw [if_pos h1, if_pos hk]
      · have h1 : ¬ (k / 32 = b ∧ k % 32 = p) := by omega
        rw [if_neg h1, if_neg hk]

theorem operator_subscript_ref_eq (d : Deque α) (hp : d.first_element_position_ < 32)
    (i : Nat) :
    d.operator_subscript_ref i =
      ((d.first_element_bucket_ * 32 + d.first_element_position_ + i) / 32,
       (d.first_element_bucket_ * 32 + d.first_element_position_ + i) % 32) := by
  unfold operator_subscript_ref sub_size_t
  simp only [kBucketSize_eq]
  split_ifs <;> (apply Prod.ext <;> simp <;> omega)

theorem operator_subscript_eq_flat (d : Deque α) (hp : d.first_element_position_ < 32)
    (i : Nat) :
    d.operator_subscript i =
      d.flat_slot (d.first_element_bucket_ * 32 + d.first_element_position_ + i) := by
  unfold operator_subscript flat_slot
  rw [operator_subscript_ref_eq d hp]

end Deque

namespace Deque

variable {α : Type}

theorem moved_buckets_eq_take {d : Deque α} {m : List (Bucket α)}
    (hm : d.container_ = some m) :
    ∀ n : Nat, n ≤ m.length → d.moved_buckets n = some (m.take n)
  | 0, _ => by simp [moved_buckets]
  | n + 1, h => by
    have ih := moved_buckets_eq_take hm n (by omega)
    have hn : n < m.length := by omega
    have hget : m[n]? = some (m[n]) := List.getElem?_eq_getElem hn
    unfold moved_buckets
    rw [ih, hm]
    simp only [hget]
    rw [List.take_succ, hget]
    rfl

theorem fresh_bucket_length : (fresh_bucket : Bucket α).length = 32 := by
  simp [fresh_bucket, kBucketSize_eq]

theorem reallocation_spec {d : Deque α} (hok : d.map_ok) :
    ∃ d1 : Deque α, d.reallocation = some d1 ∧
      d1.container_capacity_ = d.container_capacity_ * 3 + 1 ∧ d1.size_ = d.size_ ∧
      d1.first_element_bucket_ = d.container_capacity_ + d.first_element_bucket_ ∧
      d1.first_element_position_ = d.first_element_position_ ∧
      d1.last_element_bucket_ = d.container_capacity_ + d.last_element_bucket_ ∧
      d1.last_element_position_ = d.last_element_position_ ∧
      d1.map_ok ∧
      ∀ k : Nat, k < d.container_capacity_ * 32 →
        d1.flat_slot (d.container_capacity_ * 32 + k) = d.flat_slot k := by
  unfold map_ok at hok
  cases hm : d.container_ with
  | none =>
    rw [hm] at hok
    have hmoved : d.moved_buckets d.container_capacity_ = some [] := by
      rw [hok]
      rfl
    unfold reallocation
    simp only [hmoved]
    refine ⟨_, rfl, rfl, rfl, rfl, rfl, rfl, rfl, ?_, ?_⟩
    · simp [map_ok, hok, fresh_bucket_length]
    · intro k hk
      omega
  | some m =>
    rw [hm] at hok
    obtain ⟨hlen, hall⟩ := hok
    have hmoved : d.moved_buckets d.container_capacity_ = some m := by
      rw [moved_buckets_eq_take hm _ (by omega), ← hlen, List.take_length]
    unfold reallocation
    simp only [hmoved]
    refine ⟨_, rfl, rfl, rfl, rfl, rfl, rfl, rfl, ?_, ?_⟩
    · simp only [map_ok, List.length_append, List.length_replicate, List.mem_append,
        List.mem_replicate]
      refine ⟨by omega, ?_⟩
      intro b hb
      rcases hb with (⟨_, h⟩ | h) | ⟨_, h⟩
      · rw [h]; exact fresh_bucket_length
      · exact hall b h
      · rw [h]; exact fresh_bucket_length
    · intro k hk
      unfold flat_slot slot
      simp only [hm]
      have h1 : (d.container_capacity_ * 32 + k) / 32 = d.container_capacity_ + k / 32 := by
        omega
      have h2 : (d.container_capacity_ * 32 + k) % 32 = k % 32 := by omega
      have h3 : k / 32 < m.length := by omega
      rw [h1, h2]
      have h4 : (List.replicate d.container_capacity_ (fresh_bucket : Bucket α) ++ m ++
          List.replicate (d.container_capacity_ * 3 + 1 - 2 * d.container_capacity_)
            fresh_bucket)[d.container_capacity_ + k / 32]? = m[k / 32]? := by
        rw [List.append_assoc, List.getElem?_append_right (by simp)]
        simp only [List.length_replicate, Nat.add_sub_cancel_left]
        rw [List.getElem?_append_left h3]
      rw [h4]

end Deque

namespace Deque

variable {α : Type}

theorem reallocation_repr {d : Deque α} {l : List α} (h : d.Repr l) :
    ∃ d1 : Deque α, d.reallocation = some d1 ∧ d1.Repr l ∧
      d1.container_capacity_ = d.container_capacity_ * 3 + 1 ∧
      d1.first_element_bucket_ = d.container_capacity_ + d.first_element_bucket_ ∧
      d1.last_element_bucket_ = d.container_capacity_ + d.last_element_bucket_ := by
  obtain ⟨d1, hr, hcap, hsize, hfb, hfp, hlb, hlp, hok, hslot⟩ := reallocation_spec h.map_wf
  refine ⟨d1, hr, ?_, hcap, hfb, hlb⟩
  have hsz := h.size_eq
  have hspan := h.span
  have hbk := h.bucket_ok
  have hf := h.first_lt
  have hl := h.last_lt
  constructor
  · omega
  · omega
  · omega
  · exact hok
  · omega
  · rw [hsize, hfb, hfp, hlb, hlp]
    split_ifs at hspan ⊢ <;> omega
  · intro i hi
    rw [hfb, hfp, ← h.elems i hi]
    have hne : d.size_ ≠ 0 := by omega
    rw [if_neg hne] at hspan
    have hlt : d.first_element_bucket_ * 32 + d.first_element_position_ + i <
        d.container_capacity_ * 32 := by omega
    rw [← hslot _ hlt]
    congr 1
    omega

theorem grow_back_repr {d : Deque α} {l : List α} (h : d.Repr l) :
    ∃ d1 : Deque α, d.grow_back = some d1 ∧ d1.Repr l ∧ 0 < d1.container_capacity_ ∧
      (d1.size_ ≠ 0 → d1.last_element_position_ = 31 →
        d1.last_element_bucket_ + 1 < d1.container_capacity_) := by
  have hbk := h.bucket_ok
  unfold grow_back
  split_ifs with hc
  · obtain ⟨d1, hr, hrepr, hcap, hfb, hlb⟩ := reallocation_repr h
    refine ⟨d1, hr, hrepr, by omega, ?_⟩
    intro hs _
    have := hrepr.size_eq
    have := h.size_eq
    omega
  · refine ⟨d, rfl, h, by omega, ?_⟩
    intro hs hp
    simp only [kBucketSize_eq, sub_size_t] at hc
    split_ifs at hc <;> omega

theorem grow_front_repr {d : Deque α} {l : List α} (h : d.Repr l) :
    ∃ d1 : Deque α, d.grow_front = some d1 ∧ d1.Repr l ∧ 0 < d1.container_capacity_ ∧
      (d1.size_ ≠ 0 → d1.first_element_position_ = 0 → 0 < d1.first_element_bucket_) := by
  have hbk := h.bucket_ok
  unfold grow_front
  split_ifs with hc
  · obtain ⟨d1, hr, hrepr, hcap, hfb, hlb⟩ := reallocation_repr h
    refine ⟨d1, hr, hrepr, by omega, ?_⟩
    intro hs _
    have := hrepr.size_eq
    have := h.size_eq
    omega
  · refine ⟨d, rfl, h, by omega, ?_⟩
    intro hs hp
    omega

end Deque

namespace Deque

variable {α : Type}

theorem push_back_repr {d : Deque α} {l : List α} (h : d.Repr l) (v : α) :
    ∃ d1 : Deque α, d.push_back v = some d1 ∧ d1.Repr (l ++ [v]) := by
  obtain ⟨g, hg, hrepr, hcap, hroom⟩ := grow_back_repr h
  have hsz := hrepr.size_eq
  have hspan := hrepr.span
  have hbk := hrepr.bucket_ok
  have hf := hrepr.first_lt
  have hl := hrepr.last_lt
  have hadv : g.advance_back.container_capacity_ = g.container_capacity_ ∧
      g.advance_back.size_ = g.size_ ∧
      g.advance_back.first_element_bucket_ = g.first_element_bucket_ ∧
      g.advance_back.first_element_position_ = g.first_element_position_ ∧
      g.advance_back.container_ = g.container_ ∧
      g.advance_back.last_element_position_ < 32 ∧
      g.advance_back.last_element_bucket_ < g.container_capacity_ ∧
      g.advance_back.last_element_bucket_ * 32 + g.advance_back.last_element_position_ =
        g.first_element_bucket_ * 32 + g.first_element_position_ + g.size_ := by
    unfold advance_back empty
    by_cases hs : g.size_ = 0
    · simp only [hs, if_true] at hspan
      simp [hs]
      omega
    · simp only [hs, if_false] at hspan
      have hroom2 := hroom hs
      by_cases hp : g.last_element_position_ = 31
      · simp [hs, hp, kBucketSize_eq]
        omega
      · simp [hs, hp, kBucketSize_eq]
        omega
  obtain ⟨hacap, hasz, hafb, hafp, hacont, halp, halb, haflat⟩ := hadv
  have hok2 : g.advance_back.map_ok := by
    have := hrepr.map_wf
    unfold map_ok at this ⊢
    rw [hacont, hacap]
    exact this
  obtain ⟨s, hs, hscap, hssz, hsfb, hsfp, hslb, hslp, hsok, hsslot⟩ :=
    store_spec hok2 (some v) (by rw [hacap]; exact halb) halp
  refine ⟨{ s with size_ := s.size_ + 1 }, ?_, ?_⟩
  · unfold push_back emplace_back
    simp only [hg, hs]
  · constructor
    · simp only [List.length_append, List.length_singleton]
      omega
    · show s.first_element_position_ < 32
      omega
    · show s.last_element_position_ < 32
      omega
    · exact hsok
    · left
      show s.last_element_bucket_ < s.container_capacity_
      omega
    · show (if s.size_ + 1 = 0 then _ else
        s.last_element_bucket_ * 32 + s.last_element_position_ + 1 =
          s.first_element_bucket_ * 32 + s.first_element_position_ + (s.size_ + 1))
      rw [if_neg (by omega)]
      omega
    · intro i hi
      simp only [List.length_append, List.length_singleton] at hi
      show s.flat_slot (s.first_element_bucket_ * 32 + s.first_element_position_ + i) = _
      rw [hsslot, hsfb, hsfp, hafb, hafp]
      by_cases hil : i < l.length
      · rw [if_neg (by omega), List.getElem?_append_left hil, ← hrepr.elems i hil]
        unfold flat_slot slot
        rw [hacont]
      · have hieq : i = l.length := by omega
        rw [if_pos (by omega), hieq]
        simp

end Deque

namespace Deque

variable {α : Type}

theorem push_front_repr {d : Deque α} {l : List α} (h : d.Repr l) (v : α) :
    ∃ d1 : Deque α, d.push_front v = some d1 ∧ d1.Repr (v :: l) := by
  obtain ⟨g, hg, hrepr, hcap, hroom⟩ := grow_front_repr h
  have hsz := hrepr.size_eq
  have hspan := hrepr.span
  have hbk := hrepr.bucket_ok
  have hf := hrepr.first_lt
  have hl := hrepr.last_lt
  have hret : g.retreat_front.container_capacity_ = g.container_capacity_ ∧
      g.retreat_front.size_ = g.size_ ∧
      g.retreat_front.last_element_bucket_ = g.last_element_bucket_ ∧
      g.retreat_front.last_element_position_ = g.last_element_position_ ∧
      g.retreat_front.container_ = g.container_ ∧
      g.retreat_front.first_element_position_ < 32 ∧
      g.retreat_front.first_element_bucket_ < g.container_capacity_ ∧
      g.retreat_front.first_element_bucket_ * 32 + g.retreat_front.first_element_position_ +
          (if g.size_ = 0 then 0 else 1) =
        g.first_element_bucket_ * 32 + g.first_element_position_ := by
    unfold retreat_front empty
    by_cases hs : g.size_ = 0
    · simp only [hs, if_true] at hspan
      simp [hs]
      omega
    · simp only [hs, if_false] at hspan
      have hroom2 := hroom hs
      by_cases hp : g.first_element_position_ = 0
      · have hb1 : 1 ≤ g.first_element_bucket_ := by omega
        simp [hs, hp, kBucketSize_eq, sub_size_t_of_le hb1]
        omega
      · have hp1 : 1 ≤ g.first_element_position_ := by omega
        simp [hs, hp, kBucketSize_eq, sub_size_t_of_le hp1]
        omega
  obtain ⟨hacap, hasz, halb, halp, hacont, hafp, hafb, haflat⟩ := hret
  have hok2 : g.retreat_front.map_ok := by
    have := hrepr.map_wf
    unfold map_ok at this ⊢
    rw [hacont, hacap]
    exact this
  obtain ⟨s, hs, hscap, hssz, hsfb, hsfp, hslb, hslp, hsok, hsslot⟩ :=
    store_spec hok2 (some v) (by rw [hacap]; exact hafb) hafp
  refine ⟨{ s with size_ := s.size_ + 1 }, ?_, ?_⟩
  · unfold push_front emplace_front
    simp only [hg, hs]
  · constructor
    · simp only [List.length_cons]
      omega
    · show s.first_element_position_ < 32
      omega
    · show s.last_element_position_ < 32
      omega
    · exact hsok
    · left
      show s.last_element_bucket_ < s.container_capacity_
      split_ifs at hspan haflat <;> omega
    · show (if s.size_ + 1 = 0 then _ else
        s.last_element_bucket_ * 32 + s.last_element_position_ + 1 =
          s.first_element_bucket_ * 32 + s.first_element_position_ + (s.size_ + 1))
      rw [if_neg (by omega)]
      split_ifs at hspan haflat <;> omega
    · intro i hi
      simp only [List.length_cons] at hi
      show s.flat_slot (s.first_element_bucket_ * 32 + s.first_element_position_ + i) = _
      rw [hsslot, hsfb, hsfp]
      cases i with
      | zero => simp
      | succ j =>
        have hj : j < l.length := by omega
        have hne : g.size_ ≠ 0 := by omega
        rw [if_neg hne] at haflat
        have hidx : g.retreat_front.first_element_bucket_ * 32 +
            g.retreat_front.first_element_position_ + (j + 1) =
            g.first_element_bucket_ * 32 + g.first_element_position_ + j := by omega
        rw [if_neg (by omega), List.getElem?_cons_succ, ← hrepr.elems j hj, hidx]
        unfold flat_slot slot
        rw [hacont]

theorem pop_back_repr {d : Deque α} {l : List α} (h : d.Repr l) (hne : d.size_ ≠ 0) :
    ∃ d1 : Deque α, d.pop_back = some d1 ∧ d1.Repr l.dropLast := by
  have hsz := h.size_eq
  have hspan := h.span
  have hbk := h.bucket_ok
  have hf := h.first_lt
  have hl := h.last_lt
  rw [if_neg hne] at hspan
  obtain ⟨s, hs, hscap, hssz, hsfb, hsfp, hslb, hslp, hsok, hsslot⟩ :=
    store_spec h.map_wf none (show d.last_element_bucket_ < d.container_capacity_ by omega) hl
  have h1 : 1 ≤ s.size_ := by omega
  have helems : ∀ i : Nat, i < l.dropLast.length →
      s.flat_slot (s.first_element_bucket_ * 32 + s.first_element_position_ + i) =
        l.dropLast[i]? := by
    intro i hi
    simp only [List.length_dropLast] at hi
    rw [hsslot, hsfb, hsfp, if_neg (by omega), h.elems i (by omega), List.dropLast_eq_take,
      List.getElem?_take_of_lt (by omega)]
  unfold pop_back
  simp only [hs, empty, sub_size_t_of_le h1]
  by_cases hz : s.size_ - 1 = 0
  · refine ⟨_, by simp only [hz]; rfl, ?_⟩
    constructor <;> try dsimp only
    · simp only [List.length_dropLast]
      omega
    · omega
    · omega
    · exact hsok
    · omega
    · simp only [if_true]
      omega
    · exact helems
  · by_cases hp : s.last_element_position_ = 0
    · have hb1 : 1 ≤ s.last_element_bucket_ := by omega
      refine ⟨_, by simp [hz, hp]; rfl, ?_⟩
      constructor <;> try dsimp only
      · simp only [List.length_dropLast]
        omega
      · omega
      · simp [kBucketSize_eq]
      · exact hsok
      · rw [sub_size_t_of_le hb1]
        omega
      · rw [if_neg hz, sub_size_t_of_le hb1, kBucketSize_eq]
        omega
      · exact helems
    · have hp1 : 1 ≤ s.last_element_position_ := by omega
      refine ⟨_, by simp [hz, hp]; rfl, ?_⟩
      constructor <;> try dsimp only
      · simp only [List.length_dropLast]
        omega
      · omega
      · rw [sub_size_t_of_le hp1]
        omega
      · exact hsok
      · omega
      · rw [if_neg hz, sub_size_t_of_le hp1]
        omega
      · exact helems

end Deque

namespace Deque

variable {α : Type}

theorem flat_slot_congr {d d1 : Deque α} (hc : d.container_ = d1.container_) {k k1 : Nat}
    (hk : k = k1) : d.flat_slot k = d1.flat_slot k1 := by
  unfold flat_slot slot
  rw [hc, hk]

theorem pop_front_repr {d : Deque α} {l : List α} (h : d.Repr l) (hne : d.size_ ≠ 0) :
    ∃ d1 : Deque α, d.pop_front = some d1 ∧ d1.Repr (l.drop 1) := by
  have hsz := h.size_eq
  have hspan := h.span
  have hbk := h.bucket_ok
  have hf := h.first_lt
  have hl := h.last_lt
  rw [if_neg hne] at hspan
  obtain ⟨s, hs, hscap, hssz, hsfb, hsfp, hslb, hslp, hsok, hsslot⟩ :=
    store_spec h.map_wf none (show d.first_element_bucket_ < d.container_capacity_ by omega) hf
  have h1 : 1 ≤ s.size_ := by omega
  have helems : ∀ i : Nat, i < (l.drop 1).length →
      s.flat_slot (s.first_element_bucket_ * 32 + s.first_element_position_ + 1 + i) =
        (l.drop 1)[i]? := by
    intro i hi
    simp only [List.length_drop] at hi
    have hidx : s.first_element_bucket_ * 32 + s.first_element_position_ + 1 + i =
        d.first_element_bucket_ * 32 + d.first_element_position_ + (1 + i) := by omega
    rw [hidx, hsslot, if_neg (by omega), h.elems (1 + i) (by omega), List.getElem?_drop]
  unfold pop_front
  simp only [hs, empty, sub_size_t_of_le h1]
  by_cases hz : s.size_ - 1 = 0
  · refine ⟨_, by simp only [hz]; rfl, ?_⟩
    constructor <;> try dsimp only
    · simp only [List.length_drop]
      omega
    · omega
    · omega
    · exact hsok
    · omega
    · simp only [if_true]
      omega
    · intro i hi
      simp only [List.length_drop] at hi
      omega
  · by_cases hp : s.first_element_position_ = 31
    · refine ⟨_, by simp [hz, hp, kBucketSize_eq]; rfl, ?_⟩
      constructor <;> try dsimp only
      · simp only [List.length_drop]
        omega
      · omega
      · omega
      · exact hsok
      · omega
      · rw [if_neg hz]
        omega
      · intro i hi
        rw [← helems i hi]
        exact flat_slot_congr rfl (by omega)
    · refine ⟨_, by simp [hz, hp, kBucketSize_eq]; rfl, ?_⟩
      constructor <;> try dsimp only
      · simp only [List.length_drop]
        omega
      · omega
      · omega
      · exact hsok
      · omega
      · rw [if_neg hz]
        omega
      · intro i hi
        rw [← helems i hi]
        exact flat_slot_congr rfl (by omega)

theorem default_ctor_repr : (default_ctor : Deque α).Repr [] := by
  constructor <;> simp [default_ctor, map_ok]

end Deque

namespace Deque

variable {α : Type}

theorem empty_eq_false_iff (d : Deque α) : d.empty = false ↔ d.size_ ≠ 0 := by
  simp [empty]

theorem run_repr (ops : List (Op α)) :
    ∀ (d : Deque α) (l : List α), d.Repr l → d.no_pop_on_empty ops = true →
      ∃ d1 : Deque α, d.run ops = some d1 ∧ d1.Repr (plain_list_run l ops) ∧
        (plain_list_run l ops).length + count_pops ops = l.length + count_pushes ops := by
  induction ops with
  | nil =>
    intro d l h _
    exact ⟨d, rfl, h, rfl⟩
  | cons op ops ih =>
    intro d l h hg
    cases op with
    | push_back v =>
      obtain ⟨d1, h1, hr1⟩ := push_back_repr h v
      simp only [no_pop_on_empty, h1] at hg
      obtain ⟨d2, h2, hr2, hc⟩ := ih d1 _ hr1 hg
      refine ⟨d2, by simp only [run, step, h1, h2], hr2, ?_⟩
      simp only [plain_list_run, plain_list_step, count_pops, count_pushes] at hc ⊢
      simp only [List.length_append, List.length_singleton] at hc
      omega
    | push_front v =>
      obtain ⟨d1, h1, hr1⟩ := push_front_repr h v
      simp only [no_pop_on_empty, h1] at hg
      obtain ⟨d2, h2, hr2, hc⟩ := ih d1 _ hr1 hg
      refine ⟨d2, by simp only [run, step, h1, h2], hr2, ?_⟩
      simp only [plain_list_run, plain_list_step, count_pops, count_pushes] at hc ⊢
      simp only [List.length_cons] at hc
      omega
    | pop_back =>
      simp only [no_pop_on_empty, Bool.and_eq_true, Bool.not_eq_true', empty_eq_false_iff] at hg
      obtain ⟨hne, hg⟩ := hg
      obtain ⟨d1, h1, hr1⟩ := pop_back_repr h hne
      simp only [h1] at hg
      obtain ⟨d2, h2, hr2, hc⟩ := ih d1 _ hr1 hg
      refine ⟨d2, by simp only [run, step, h1, h2], hr2, ?_⟩
      simp only [plain_list_run, plain_list_step, count_pops, count_pushes] at hc ⊢
      simp only [List.length_dropLast] at hc
      have := h.size_eq
      omega
    | pop_front =>
      simp only [no_pop_on_empty, Bool.and_eq_true, Bool.not_eq_true', empty_eq_false_iff] at hg
      obtain ⟨hne, hg⟩ := hg
      obtain ⟨d1, h1, hr1⟩ := pop_front_repr h hne
      simp only [h1] at hg
      obtain ⟨d2, h2, hr2, hc⟩ := ih d1 _ hr1 hg
      refine ⟨d2, by simp only [run, step, h1, h2], hr2, ?_⟩
      simp only [plain_list_run, plain_list_step, count_pops, count_pushes] at hc ⊢
      simp only [List.length_drop] at hc
      have := h.size_eq
      omega

theorem run_append (xs ys : List (Op α)) :
    ∀ d : Deque α, d.run (xs ++ ys) = (d.run xs).bind (fun d1 => d1.run ys) := by
  induction xs with
  | nil => intro d; rfl
  | cons x xs ih =>
    intro d
    simp only [List.cons_append, run]
    cases d.step x with
    | none => rfl
    | some d1 => exact ih d1

theorem run_pushes (ps : List (Op α)) :
    ∀ (d : Deque α) (l : List α), d.Repr l → (∀ o ∈ ps, o.is_push = true) →
      ∃ d1 : Deque α, d.run ps = some d1 ∧ d1.size_ = d.size_ + ps.length ∧
        ∃ l1 : List α, d1.Repr l1 := by
  induction ps with
  | nil =>
    intro d l h _
    exact ⟨d, rfl, rfl, l, h⟩
  | cons op ps ih =>
    intro d l h hall
    have hop := hall op (List.mem_cons_self _ _)
    have hrest : ∀ o ∈ ps, o.is_push = true := fun o ho => hall o (List.mem_cons_of_mem _ ho)
    cases op with
    | push_back v =>
      obtain ⟨d1, h1, hr1⟩ := push_back_repr h v
      obtain ⟨d2, h2, hs2, l2, hr2⟩ := ih d1 _ hr1 hrest
      refine ⟨d2, by simp only [run, step, h1, h2], ?_, l2, hr2⟩
      have := hr1.size_eq
      have := h.size_eq
      simp only [List.length_append, List.length_singleton, List.length_cons, List.length_nil] at *
      omega
    | push_front v =>
      obtain ⟨d1, h1, hr1⟩ := push_front_repr h v
      obtain ⟨d2, h2, hs2, l2, hr2⟩ := ih d1 _ hr1 hrest
      refine ⟨d2, by simp only [run, step, h1, h2], ?_, l2, hr2⟩
      have := hr1.size_eq
      have := h.size_eq
      simp only [List.length_cons] at *
      omega
    | pop_back => simp [Op.is_push] at hop
    | pop_front => simp [Op.is_push] at hop

theorem run_pops (qs : List (Op α)) :
    ∀ (d : Deque α) (l : List α), d.Repr l → (∀ o ∈ qs, o.is_pop = true) →
      qs.length ≤ d.size_ →
      ∃ d1 : Deque α, d.run qs = some d1 ∧ d1.size_ + qs.length = d.size_ := by
  induction qs with
  | nil =>
    intro d l h _ _
    exact ⟨d, rfl, rfl⟩
  | cons op qs ih =>
    intro d l h hall hlen
    have hop := hall op (List.mem_cons_self _ _)
    have hrest : ∀ o ∈ qs, o.is_pop = true := fun o ho => hall o (List.mem_cons_of_mem _ ho)
    simp only [List.length_cons] at hlen
    have hne : d.size_ ≠ 0 := by omega
    cases op with
    | push_back v => simp [Op.is_pop] at hop
    | push_front v => simp [Op.is_pop] at hop
    | pop_back =>
      obtain ⟨d1, h1, hr1⟩ := pop_back_repr h hne
      have hs1 : d1.size_ + 1 = d.size_ := by
        have := hr1.size_eq
        have := h.size_eq
        simp only [List.length_dropLast] at *
        omega
      obtain ⟨d2, h2, hs2⟩ := ih d1 _ hr1 hrest (by omega)
      refine ⟨d2, by simp only [run, step, h1, h2], ?_⟩
      simp only [List.length_cons]
      omega
    | pop_front =>
      obtain ⟨d1, h1, hr1⟩ := pop_front_repr h hne
      have hs1 : d1.size_ + 1 = d.size_ := by
        have := hr1.size_eq
        have := h.size_eq
        simp only [List.length_drop] at *
        omega
      obtain ⟨d2, h2, hs2⟩ := ih d1 _ hr1 hrest (by omega)
      refine ⟨d2, by simp only [run, step, h1, h2], ?_⟩
      simp only [List.length_cons]
      omega

end Deque

/-- C1. Replaying any sequence of `push_back`, `push_front`, `pop_back` and `pop_front`
on a default-constructed deque, with no pop called on an empty deque, succeeds, and
afterwards `operator[](i)` is, for every `i < size()`, the `i`-th element of the list
obtained by replaying the same calls on a plain list. -/
theorem C1_replay_refines_plain_list {α : Type} (ops : List (Op α))
    (hvalid : (Deque.default_ctor : Deque α).no_pop_on_empty ops = true) :
    ∃ d : Deque α, Deque.default_ctor.run ops = some d ∧
      d.size = (plain_list_run [] ops).length ∧
      ∀ (i : Nat) (hi : i < (plain_list_run [] ops).length),
        d.operator_subscript i = some ((plain_list_run [] ops)[i]) := by
  obtain ⟨d, hrun, hrepr, _⟩ := Deque.run_repr ops _ [] Deque.default_ctor_repr hvalid
  refine ⟨d, hrun, hrepr.size_eq, ?_⟩
  intro i hi
  rw [Deque.operator_subscript_eq_flat d hrepr.first_lt, hrepr.elems i hi]
  exact List.getElem?_eq_getElem hi

/-- Witness for C1: three pushes and a pop on a deque of integers. -/
theorem C1_replay_refines_plain_list_witness :
    ∃ d : Deque Int,
      Deque.default_ctor.run [Op.push_back 1, Op.push_front 0, Op.push_back 2, Op.pop_front] =
        some d ∧
      d.size = (plain_list_run []
        [Op.push_back 1, Op.push_front 0, Op.push_back 2, Op.pop_front]).length ∧
      ∀ (i : Nat) (hi : i < (plain_list_run ([] : List Int)
          [Op.push_back 1, Op.push_front 0, Op.push_back 2, Op.pop_front]).length),
        d.operator_subscript i = some ((plain_list_run []
          [Op.push_back 1, Op.push_front 0, Op.push_back 2, Op.pop_front])[i]) :=
  C1_replay_refines_plain_list
    [Op.push_back 1, Op.push_front 0, Op.push_back 2, Op.pop_front] (by decide)

/-- C2. After any sequence of pushes and pops on a default-constructed deque with no pop
called on an empty deque, `size()` is the number of pushes minus the number of pops and
`empty()` is true exactly when `size() == 0`; and `n` pushes in any mix followed by `n`
pops in any mix leave a deque whose `empty()` is true. -/
theorem C2_size_counts_pushes_minus_pops {α : Type} :
    (∀ ops : List (Op α), (Deque.default_ctor : Deque α).no_pop_on_empty ops = true →
      ∃ d : Deque α, Deque.default_ctor.run ops = some d ∧
        (d.size : Int) = (count_pushes ops : Int) - (count_pops ops : Int) ∧
        (d.empty = true ↔ d.size = 0)) ∧
    (∀ ps qs : List (Op α), (∀ o ∈ ps, o.is_push = true) → (∀ o ∈ qs, o.is_pop = true) →
      ps.length = qs.length →
      ∃ d : Deque α, Deque.default_ctor.run (ps ++ qs) = some d ∧ d.empty = true) := by
  constructor
  · intro ops hvalid
    obtain ⟨d, hrun, hrepr, hcount⟩ := Deque.run_repr ops _ [] Deque.default_ctor_repr hvalid
    refine ⟨d, hrun, ?_, by simp [Deque.empty, Deque.size]⟩
    have hsz : d.size = (plain_list_run [] ops).length := hrepr.size_eq
    simp only [List.length_nil] at hcount
    omega
  · intro ps qs hps hqs hlen
    obtain ⟨d1, hrun1, hsize1, l1, hrepr1⟩ :=
      Deque.run_pushes ps _ [] Deque.default_ctor_repr hps
    have hsize0 : (Deque.default_ctor : Deque α).size_ = 0 := rfl
    obtain ⟨d2, hrun2, hsize2⟩ := Deque.run_pops qs d1 l1 hrepr1 hqs (by omega)
    refine ⟨d2, ?_, ?_⟩
    · rw [Deque.run_append, hrun1]
      exact hrun2
    · have hz : d2.size_ = 0 := by omega
      simp [Deque.empty, hz]

/-- Witness for C2: two pushes and one pop, and two pushes followed by two pops. -/
theorem C2_size_counts_pushes_minus_pops_witness :
    (∃ d : Deque Int,
      Deque.default_ctor.run [Op.push_back 5, Op.push_front 4, Op.pop_back] = some d ∧
        (d.size : Int) =
          (count_pushes [Op.push_back (5 : Int), Op.push_front 4, Op.pop_back] : Int) -
            (count_pops [Op.push_back (5 : Int), Op.push_front 4, Op.pop_back] : Int) ∧
        (d.empty = true ↔ d.size = 0)) ∧
    (∃ d : Deque Int,
      Deque.default_ctor.run ([Op.push_back 5, Op.push_front 4] ++ [Op.pop_front, Op.pop_back]) =
        some d ∧ d.empty = true) :=
  ⟨C2_size_counts_pushes_minus_pops.1 [Op.push_back 5, Op.push_front 4, Op.pop_back]
      (by decide),
    C2_size_counts_pushes_minus_pops.2 [Op.push_back 5, Op.push_front 4]
      [Op.pop_front, Op.pop_back] (by decide) (by decide) (by decide)⟩

/-- C3. For every deque and every index `i`, `at(i)` throws `out_of_range` if and only
if `i >= size()`; the call leaves every member of the deque (size, both cursors,
capacity, map and stored elements) as it was, in particular when it throws. -/
theorem C3_at_throws_iff_out_of_range {α : Type} (d : Deque α) (i : Nat) :
    ((d.at_ i).1 = Except.error DequeException.out_of_range ↔ i ≥ d.size) ∧
    (d.at_ i).2 = d := by
  unfold Deque.at_ Deque.size
  by_cases h : i ≥ d.size_
  · simp [h]
  · simp only [h, if_false]
    split_ifs <;> simp

/-- C4 (evaluation at the failing inputs). On the deque holding `[1, 2]`,
`insert(begin() + 0, 9)` leaves `[9, 2, 1]` and `insert(begin() + 1, 9)` leaves
`[1, 2, 9]`, where the contents should be `[9, 1, 2]` and `[1, 9, 2]`; `emplace` does
the same.  The closing `std::swap(*(end() - 2), *(end() - 1))` exchanges the last two
elements after the rotation has already put every element in place. -/
theorem C4_insert_swaps_last_two :
    ((Deque.default_ctor.run [Op.push_back (1 : Int), Op.push_back 2]).bind
        (fun d => d.insert (d.begin.operator_add 0) 9)).map Deque.to_list =
      some [some 9, some 2, some 1] ∧
    ((Deque.default_ctor.run [Op.push_back (1 : Int), Op.push_back 2]).bind
        (fun d => d.insert (d.begin.operator_add 1) 9)).map Deque.to_list =
      some [some 1, some 2, some 9] ∧
    ((Deque.default_ctor.run [Op.push_back (1 : Int), Op.push_back 2]).bind
        (fun d => d.emplace (d.begin.operator_add 0) 9)).map Deque.to_list =
      some [some 9, some 2, some 1] ∧
    ((Deque.default_ctor.run [Op.push_back (1 : Int), Op.push_back 2]).bind
        (fun d => d.emplace (d.begin.operator_add 1) 9)).map Deque.to_list =
      some [some 1, some 2, some 9] := by
  decide

/-- C5 (evaluation at the failing input). On the deque holding `[1, 2, 3]`,
`erase(begin() + 0)` leaves `[1, 2]` where the contents should be `[2, 3]`: the loop
swaps `*iter` and `*(iter + 1)` on every iteration instead of moving along with
`position`, so the first two elements are exchanged twice and `pop_back` removes `3`. -/
theorem C5_erase_removes_wrong_element :
    ((Deque.default_ctor.run [Op.push_back (1 : Int), Op.push_back 2, Op.push_back 3]).bind
        (fun d => d.erase (d.begin.operator_add 0))).map Deque.to_list =
      some [some 1, some 2] := by
  decide

/-- C6 (evaluation at the failing input). A deque emptied by `push_back(1); pop_back()`
has `size() == 0` and a non-null map; its copy constructor computes the capacity
`(0 - 1) / 32 + 1 = 2^59` in `size_t` arithmetic and starts copying 32 elements into the
first bucket from a source that has no live element: no copy is produced. -/
theorem C6_copy_of_emptied_deque_fails :
    (Deque.default_ctor.run [Op.push_back (1 : Int), Op.pop_back]).map Deque.size = some 0 ∧
    (Deque.default_ctor.run [Op.push_back (1 : Int), Op.pop_back]).map
        (fun d => sub_size_t d.size_ 1 / kBucketSize + 1) = some (2 ^ 59) ∧
    (Deque.default_ctor.run [Op.push_back (1 : Int), Op.pop_back]).bind Deque.copy_ctor =
      none := by
  decide

/-- C7. After the move construction `Deque b(std::move(a))` the new deque `b` has every
member of the former `a` (so the same size and `b[i]` equal to the former `a[i]` for
every `i`, in the same order) and the moved-from `a` has `size() == 0`. -/
theorem C7_move_ctor_transfers_contents {α : Type} (a : Deque α) :
    (a.move_ctor).2.size = 0 ∧ (a.move_ctor).1.size = a.size ∧
      (∀ i : Nat, (a.move_ctor).1.operator_subscript i = a.operator_subscript i) ∧
      (a.move_ctor).1.to_list = a.to_list ∧ (a.move_ctor).1 = a := by
  have h : (a.move_ctor).1 = a := by
    cases a
    rfl
  refine ⟨rfl, rfl, fun i => by rw [h], by rw [h], h⟩

/-- C8 (counterexample). With `a` holding `[1]` and `b` holding `[2]`, after
`b = std::move(a)` the moved-from `a` has `size() == 1` and holds `[2]`. -/
theorem C8_move_assign_source_not_empty :
    ((Deque.default_ctor.run [Op.push_back (1 : Int)]).bind (fun a =>
      (Deque.default_ctor.run [Op.push_back (2 : Int)]).map (fun b =>
        ((b.operator_assign_move a).2.size, (b.operator_assign_move a).2.to_list)))) =
      some (1, [some 2]) := by
  decide

/-- C8 (amended). After the move assignment `b = std::move(a)` the deque `b` has every
member of the former `a` (so it holds exactly the former contents of `a`, in order) and
`a` has every member of the former `b`; the moved-from `a` has `size() == 0` exactly
when `b` was empty before the assignment. -/
theorem C8_move_assign_exchanges_contents {α : Type} (a b : Deque α) :
    (b.operator_assign_move a).1 = a ∧ (b.operator_assign_move a).2 = b ∧
      (b.operator_assign_move a).1.size = a.size ∧
      (∀ i : Nat, (b.operator_assign_move a).1.operator_subscript i = a.operator_subscript i) ∧
      ((b.operator_assign_move a).2.size = 0 ↔ b.size = 0) := by
  have h1 : (b.operator_assign_move a).1 = a := by
    cases a
    rfl
  have h2 : (b.operator_assign_move a).2 = b := by
    cases b
    rfl
  refine ⟨h1, h2, by rw [h1], fun i => by rw [h1], by rw [h2]⟩

namespace Iterator

theorem ctor_eq_of_flat (b p : Nat) (hp : p < 32) : ctor b p = of_flat (b * 32 + p) := by
  unfold ctor of_flat
  rw [Iterator.mk.injEq]
  constructor <;> omega

theorem operator_inc_of_flat (k : Nat) : (of_flat k).operator_inc = of_flat (k + 1) := by
  unfold operator_inc of_flat
  simp only [Deque.kBucketSize_eq]
  split_ifs with h
  · rw [Iterator.mk.injEq]
    constructor <;> omega
  · rw [Iterator.mk.injEq]
    constructor <;> omega

theorem operator_dec_of_flat (k : Nat) (hk : 1 ≤ k) :
    (of_flat k).operator_dec = of_flat (k - 1) := by
  unfold operator_dec of_flat
  simp only [Deque.kBucketSize_eq]
  split_ifs with h
  · rw [Iterator.mk.injEq]
    constructor <;> omega
  · rw [Iterator.mk.injEq]
    constructor <;> omega

theorem operator_dec_ctor_succ (b p : Nat) (hp : p < 32) :
    (ctor b (p + 1)).operator_dec = of_flat (b * 32 + p) := by
  unfold operator_dec ctor of_flat
  simp only [Deque.kBucketSize_eq]
  split_ifs with h
  · rw [Iterator.mk.injEq]
    constructor <;> omega
  · omega

theorem iterate_inc_of_flat (k n : Nat) :
    Nat.iterate operator_inc n (of_flat k) = of_flat (k + n) := by
  induction n with
  | zero => rfl
  | succ n ih => rw [Function.iterate_succ_apply', ih, operator_inc_of_flat]; rfl

theorem iterate_dec_of_flat (k n : Nat) (hn : n ≤ k) :
    Nat.iterate operator_dec n (of_flat k) = of_flat (k - n) := by
  induction n with
  | zero => rfl
  | succ n ih =>
    rw [Function.iterate_succ_apply', ih (by omega), operator_dec_of_flat _ (by omega)]
    rfl

theorem operator_deref_of_flat {α : Type} (d : Deque α) (k : Nat) :
    (of_flat k).operator_deref d = d.flat_slot k := by
  unfold operator_deref of_flat Deque.flat_slot
  dsimp only
  rw [if_pos ⟨by omega, by omega⟩]
  simp only [Int.toNat_ofNat]

theorem flattened_ctor (b p : Nat) (h : b * 32 + p < 2 ^ 31) :
    (ctor b p).flattened = some (((b * 32 + p : Nat)) : Int) := by
  have hk : ((kBucketSize : Nat) : Int) = 32 := rfl
  unfold flattened ctor int_result
  dsimp only
  rw [hk, if_pos ⟨by omega, by omega⟩]
  dsimp only
  rw [if_pos ⟨by omega, by omega⟩]
  congr 1

theorem flattened_ctor_none (b p : Nat) (h : 2 ^ 31 ≤ b * 32 + p) :
    (ctor b p).flattened = none := by
  have hk : ((kBucketSize : Nat) : Int) = 32 := rfl
  unfold flattened ctor int_result
  dsimp only
  rw [hk]
  by_cases hprod : (-2147483648 : Int) ≤ (b : Int) * 32 ∧ (b : Int) * 32 ≤ 2147483647
  · rw [if_pos hprod]
    dsimp only
    rw [if_neg (by omega)]
  · rw [if_neg hprod]

theorem flattened_of_flat (k : Nat) (h : k < 2 ^ 31) :
    (of_flat k).flattened = some (k : Int) := by
  have hc : of_flat k = ctor (k / 32) (k % 32) := rfl
  rw [hc, flattened_ctor _ _ (by omega)]
  congr 1
  omega

theorem operator_eq_none_of_right (it other : Iterator) (h : other.flattened = none) :
    it.operator_eq other = none := by
  unfold operator_eq
  rw [h]
  cases it.flattened <;> rfl

theorem operator_eq_none_of_left (it other : Iterator) (h : it.flattened = none) :
    it.operator_eq other = none := by
  unfold operator_eq
  rw [h]

theorem operator_eq_of_flat_ctor (k b p : Nat) (hk : k < 2 ^ 31) (hbp : b * 32 + p < 2 ^ 31) :
    (of_flat k).operator_eq (ctor b p) = some (decide (k = b * 32 + p)) := by
  unfold operator_eq
  rw [flattened_of_flat k hk, flattened_ctor b p hbp]
  dsimp only
  congr 1
  rw [Bool.eq_iff_iff]
  simp only [beq_iff_eq, decide_eq_true_eq]
  omega

theorem operator_eq_ctor_ctor (b p b1 p1 : Nat) (h : b * 32 + p < 2 ^ 31)
    (h1 : b1 * 32 + p1 < 2 ^ 31) :
    (ctor b p).operator_eq (ctor b1 p1) = some (decide (b * 32 + p = b1 * 32 + p1)) := by
  unfold operator_eq
  rw [flattened_ctor b p h, flattened_ctor b1 p1 h1]
  dsimp only
  congr 1
  rw [Bool.eq_iff_iff]
  simp only [beq_iff_eq, decide_eq_true_eq]
  omega

theorem operator_diff_of_flat (a b : Nat) (ha : a < 2 ^ 31) (hb : b < 2 ^ 31) :
    (of_flat a).operator_diff (of_flat b) = some ((a : Int) - (b : Int)) := by
  unfold operator_diff
  rw [flattened_of_flat a ha, flattened_of_flat b hb]
  dsimp only
  unfold int_result
  rw [if_pos ⟨by omega, by omega⟩]

theorem operator_diff_ctor_of_flat (b p k : Nat) (h : b * 32 + p < 2 ^ 31) (hk : k < 2 ^ 31) :
    (ctor b p).operator_diff (of_flat k) = some ((b : Int) * 32 + (p : Int) - (k : Int)) := by
  unfold operator_diff
  rw [flattened_ctor b p h, flattened_of_flat k hk]
  dsimp only
  unfold int_result
  rw [if_pos ⟨by omega, by omega⟩]
  congr 1

theorem operator_diff_none_of_left (it other : Iterator) (h : it.flattened = none) :
    it.operator_diff other = none := by
  unfold operator_diff
  rw [h]

end Iterator

namespace Deque

variable {α : Type}

theorem begin_eq_of_flat {d : Deque α} {l : List α} (h : d.Repr l) :
    d.begin = Iterator.of_flat (d.first_element_bucket_ * 32 + d.first_element_position_) :=
  Iterator.ctor_eq_of_flat _ _ h.first_lt

theorem forward_traversal {d : Deque α} {l : List α} (h : d.Repr l)
    (hbound : d.last_element_bucket_ * 32 + d.last_element_position_ + 1 < 2 ^ 31) :
    (∀ k : Nat, k < d.size_ →
      (Nat.iterate Iterator.operator_inc k d.begin).operator_eq d.end_ = some false ∧
      (Nat.iterate Iterator.operator_inc k d.begin).operator_deref d = d.operator_subscript k ∧
      d.operator_subscript k = l[k]?) ∧
    (Nat.iterate Iterator.operator_inc d.size_ d.begin).operator_eq d.end_ = some true := by
  have hsz := h.size_eq
  have hspan := h.span
  have hf := h.first_lt
  have hl := h.last_lt
  constructor
  · intro k hk
    have hne : d.size_ ≠ 0 := by omega
    rw [if_neg hne] at hspan
    have hend : d.end_ = Iterator.ctor d.last_element_bucket_ (d.last_element_position_ + 1) := by
      simp [end_, empty, hne]
    rw [begin_eq_of_flat h, Iterator.iterate_inc_of_flat, hend,
      Iterator.operator_eq_of_flat_ctor _ _ _ (by omega) (by omega),
      Iterator.operator_deref_of_flat, operator_subscript_eq_flat d hf]
    refine ⟨?_, rfl, h.elems k (by omega)⟩
    rw [decide_eq_false (by omega)]
  · rw [begin_eq_of_flat h, Iterator.iterate_inc_of_flat]
    by_cases hz : d.size_ = 0
    · rw [if_pos hz] at hspan
      have hend : d.end_ = Iterator.ctor d.last_element_bucket_ d.last_element_position_ := by
        simp [end_, empty, hz]
      rw [hend, Iterator.operator_eq_of_flat_ctor _ _ _ (by omega) (by omega),
        decide_eq_true (by omega)]
    · rw [if_neg hz] at hspan
      have hend : d.end_ =
          Iterator.ctor d.last_element_bucket_ (d.last_element_position_ + 1) := by
        simp [end_, empty, hz]
      rw [hend, Iterator.operator_eq_of_flat_ctor _ _ _ (by omega) (by omega),
        decide_eq_true (by omega)]

theorem reverse_current_iterate (r : ReverseIterator) (n : Nat) :
    (Nat.iterate ReverseIterator.operator_inc n r).current =
      Nat.iterate Iterator.operator_dec n r.current := by
  induction n with
  | zero => rfl
  | succ n ih =>
    rw [Function.iterate_succ_apply', Function.iterate_succ_apply', ← ih]
    rfl

theorem iterate_dec_end {d : Deque α} {l : List α} (h : d.Repr l) (hne : d.size_ ≠ 0)
    (n : Nat) (hn : n < d.size_) :
    Nat.iterate Iterator.operator_dec (n + 1) d.end_ =
      Iterator.of_flat (d.first_element_bucket_ * 32 + d.first_element_position_ +
        (d.size_ - 1 - n)) := by
  have hspan := h.span
  have hl := h.last_lt
  rw [if_neg hne] at hspan
  have hend : d.end_ = Iterator.ctor d.last_element_bucket_ (d.last_element_position_ + 1) := by
    simp [end_, empty, hne]
  rw [Function.iterate_succ_apply, hend, Iterator.operator_dec_ctor_succ _ _ hl,
    Iterator.iterate_dec_of_flat _ _ (by omega)]
  congr 1
  omega

theorem reverse_traversal {d : Deque α} {l : List α} (h : d.Repr l)
    (hbound : d.last_element_bucket_ * 32 + d.last_element_position_ + 1 < 2 ^ 31) :
    (∀ k : Nat, k < d.size_ →
      (Nat.iterate ReverseIterator.operator_inc k d.rbegin).operator_eq d.rend = some false ∧
      (Nat.iterate ReverseIterator.operator_inc k d.rbegin).operator_deref d =
        d.operator_subscript (d.size_ - 1 - k) ∧
      d.operator_subscript (d.size_ - 1 - k) = l[d.size_ - 1 - k]?) ∧
    (Nat.iterate ReverseIterator.operator_inc d.size_ d.rbegin).operator_eq d.rend =
      some true := by
  have hsz := h.size_eq
  have hspan := h.span
  have hf := h.first_lt
  have hl := h.last_lt
  have hbegin : d.begin =
      Iterator.ctor d.first_element_bucket_ d.first_element_position_ := rfl
  constructor
  · intro k hk
    have hne : d.size_ ≠ 0 := by omega
    rw [if_neg hne] at hspan
    refine ⟨?_, ?_, ?_⟩
    · unfold ReverseIterator.operator_eq
      rw [reverse_current_iterate]
      show (Nat.iterate Iterator.operator_dec k d.end_).operator_eq d.begin = some false
      cases k with
      | zero =>
        have hend : d.end_ =
            Iterator.ctor d.last_element_bucket_ (d.last_element_position_ + 1) := by
          simp [end_, empty, hne]
        rw [Function.iterate_zero_apply, hend, hbegin,
          Iterator.operator_eq_ctor_ctor _ _ _ _ (by omega) (by omega),
          decide_eq_false (by omega)]
      | succ n =>
        rw [iterate_dec_end h hne n (by omega), hbegin,
          Iterator.operator_eq_of_flat_ctor _ _ _ (by omega) (by omega),
          decide_eq_false (by omega)]
    · unfold ReverseIterator.operator_deref
      rw [reverse_current_iterate]
      have hstep : (Nat.iterate Iterator.operator_dec k d.rbegin.current).operator_dec =
          Nat.iterate Iterator.operator_dec (k + 1) d.end_ :=
        (Function.iterate_succ_apply' Iterator.operator_dec k d.end_).symm
      rw [hstep, iterate_dec_end h hne k hk, Iterator.operator_deref_of_flat,
        operator_subscript_eq_flat d hf]
    · rw [operator_subscript_eq_flat d hf]
      exact h.elems _ (by omega)
  · unfold ReverseIterator.operator_eq
    rw [reverse_current_iterate]
    show (Nat.iterate Iterator.operator_dec d.size_ d.end_).operator_eq d.begin = some true
    by_cases hz : d.size_ = 0
    · rw [if_pos hz] at hspan
      have hend : d.end_ = Iterator.ctor d.last_element_bucket_ d.last_element_position_ := by
        simp [end_, empty, hz]
      rw [hz, Function.iterate_zero_apply, hend, hbegin,
        Iterator.operator_eq_ctor_ctor _ _ _ _ (by omega) (by omega),
        decide_eq_true (by omega)]
    · rw [if_neg hz] at hspan
      obtain ⟨n, hn⟩ : ∃ n, d.size_ = n + 1 := ⟨d.size_ - 1, by omega⟩
      have := iterate_dec_end h hz n (by omega)
      rw [← hn] at this
      rw [this, hbegin, Iterator.operator_eq_of_flat_ctor _ _ _ (by omega) (by omega),
        decide_eq_true (by omega)]

theorem bound_of_reaches_within_int {ops : List (Op α)} {d : Deque α}
    (hrun : default_ctor.run ops = some d) (hint : reaches_within_int ops = true) :
    d.last_element_bucket_ * 32 + d.last_element_position_ + 1 < 2 ^ 31 := by
  unfold reaches_within_int at hint
  rw [hrun] at hint
  exact of_decide_eq_true hint

theorem run_push_backs (n : Nat) (v : α) :
    ∃ (d : Deque α) (l : List α),
      default_ctor.run (List.replicate n (Op.push_back v)) = some d ∧ d.Repr l ∧
        d.size_ = n := by
  obtain ⟨d, hrun, hsize, l, hrepr⟩ :=
    run_pushes (List.replicate n (Op.push_back v)) default_ctor [] default_ctor_repr
      (fun o ho => by rw [List.eq_of_mem_replicate ho]; rfl)
  refine ⟨d, l, hrun, hrepr, ?_⟩
  rw [hsize, List.length_replicate]
  exact Nat.zero_add n

theorem end_flattened_none {d : Deque α} {l : List α} (h : d.Repr l)
    (hbig : 2 ^ 31 ≤ d.size_) : d.end_.flattened = none := by
  have hspan := h.span
  have hne : d.size_ ≠ 0 := by omega
  rw [if_neg hne] at hspan
  have hend : d.end_ = Iterator.ctor d.last_element_bucket_ (d.last_element_position_ + 1) := by
    simp [end_, empty, hne]
  rw [hend]
  exact Iterator.flattened_ctor_none _ _ (by omega)

end Deque

/-- C9 (counterexample). The deque reached by `2^31` calls of `push_back(0)` has
`size() == 2^31`, and the comparison of an iterator with its `end()` is undefined:
the flattened coordinate `bucket_number_ * kBucketSize + position_` of `end()` is at
least `2^31` and overflows the `int` it is computed in.  So neither `begin() == end()`
nor the comparison after `size()` increments yields a value. -/
theorem C9_comparison_with_end_overflows_int :
    ∃ d : Deque Int,
      Deque.default_ctor.run (List.replicate (2 ^ 31) (Op.push_back 0)) = some d ∧
      d.size = 2 ^ 31 ∧
      d.begin.operator_eq d.end_ = none ∧
      (Nat.iterate Iterator.operator_inc d.size d.begin).operator_eq d.end_ = none ∧
      (Nat.iterate Iterator.operator_inc d.size d.begin).operator_eq d.end_ ≠ some true := by
  obtain ⟨d, l, hrun, hrepr, hsize⟩ := Deque.run_push_backs (2 ^ 31) (0 : Int)
  have hnone := Deque.end_flattened_none hrepr (Nat.le_of_eq hsize.symm)
  refine ⟨d, hrun, hsize, Iterator.operator_eq_none_of_right _ _ hnone,
    Iterator.operator_eq_none_of_right _ _ hnone, ?_⟩
  rw [Iterator.operator_eq_none_of_right _ _ hnone]
  exact Option.noConfusion

/-- C9 (amended). For every deque reached from a default-constructed one by pushes and
pops (no pop on an empty deque) whose `end()` has a flattened coordinate below `2^31`,
the iterator obtained from `begin()` by `k` applications of `operator++` compares
unequal to `end()` for every `k < size()` and dereferences to the live element
`operator[](k)`, and it compares equal to `end()` after `size()` applications; so for
an empty deque `begin() == end()`. -/
theorem C9_forward_iteration_visits_in_order {α : Type} (ops : List (Op α))
    (hvalid : (Deque.default_ctor : Deque α).no_pop_on_empty ops = true)
    (hint : Deque.reaches_within_int ops = true) :
    ∃ d : Deque α, Deque.default_ctor.run ops = some d ∧
      (∀ k : Nat, k < d.size →
        (Nat.iterate Iterator.operator_inc k d.begin).operator_eq d.end_ = some false ∧
        ∃ v : α, (Nat.iterate Iterator.operator_inc k d.begin).operator_deref d = some v ∧
          d.operator_subscript k = some v) ∧
      (Nat.iterate Iterator.operator_inc d.size d.begin).operator_eq d.end_ = some true ∧
      (d.empty = true → d.begin.operator_eq d.end_ = some true) := by
  obtain ⟨d, hrun, hrepr, _⟩ := Deque.run_repr ops _ [] Deque.default_ctor_repr hvalid
  obtain ⟨hfw, hend⟩ :=
    Deque.forward_traversal hrepr (Deque.bound_of_reaches_within_int hrun hint)
  refine ⟨d, hrun, ?_, hend, ?_⟩
  · intro k hk
    obtain ⟨h1, h2, h3⟩ := hfw k hk
    have hlt : k < (plain_list_run [] ops).length := by
      rw [← hrepr.size_eq]
      exact hk
    refine ⟨h1, (plain_list_run [] ops)[k], ?_, ?_⟩
    · rw [h2, h3]
      exact List.getElem?_eq_getElem hlt
    · rw [h3]
      exact List.getElem?_eq_getElem hlt
  · intro he
    have hz : d.size_ = 0 := by simpa [Deque.empty] using he
    have := hend
    rw [hz] at this
    exact this

/-- Witness for C9: a deque that has grown at both ends. -/
theorem C9_forward_iteration_visits_in_order_witness :
    ∃ d : Deque Int,
      Deque.default_ctor.run [Op.push_back 1, Op.push_front 0, Op.push_back 2] = some d ∧
      (∀ k : Nat, k < d.size →
        (Nat.iterate Iterator.operator_inc k d.begin).operator_eq d.end_ = some false ∧
        ∃ v : Int, (Nat.iterate Iterator.operator_inc k d.begin).operator_deref d = some v ∧
          d.operator_subscript k = some v) ∧
      (Nat.iterate Iterator.operator_inc d.size d.begin).operator_eq d.end_ = some true ∧
      (d.empty = true → d.begin.operator_eq d.end_ = some true) :=
  C9_forward_iteration_visits_in_order [Op.push_back 1, Op.push_front 0, Op.push_back 2]
    (by decide) (by decide)

/-- C10 (counterexample). The deque reached by `2^31` calls of `push_back(0)` has
`size() == 2^31`, and the comparison of `rbegin()` with `rend()` is undefined: it
compares the wrapped `end()` with `begin()`, and the flattened coordinate of `end()`
overflows the `int` it is computed in.  So the comparison before the first step does
not yield `false`, although `0 < size()`. -/
theorem C10_comparison_with_rend_overflows_int :
    ∃ d : Deque Int,
      Deque.default_ctor.run (List.replicate (2 ^ 31) (Op.push_back 0)) = some d ∧
      d.size = 2 ^ 31 ∧
      d.rbegin.operator_eq d.rend = none ∧
      (Nat.iterate ReverseIterator.operator_inc 0 d.rbegin).operator_eq d.rend ≠
        some false := by
  obtain ⟨d, l, hrun, hrepr, hsize⟩ := Deque.run_push_backs (2 ^ 31) (0 : Int)
  have hnone := Deque.end_flattened_none hrepr (Nat.le_of_eq hsize.symm)
  have hcmp : d.rbegin.operator_eq d.rend = none :=
    Iterator.operator_eq_none_of_left _ _ hnone
  refine ⟨d, hrun, hsize, hcmp, ?_⟩
  rw [Function.iterate_zero_apply, hcmp]
  exact Option.noConfusion

/-- C10 (amended). For every deque reached from a default-constructed one by pushes
and pops (no pop on an empty deque) whose `end()` has a flattened coordinate below
`2^31`, the reverse iterator obtained from `rbegin()` by `k` steps compares unequal to
`rend()` for every `k < size()` and dereferences to the live element
`operator[](size() - 1 - k)`, and it compares equal to `rend()` after `size()` steps;
the back cursor may be at any slot of its bucket, the last one included. -/
theorem C10_reverse_iteration_visits_in_reverse {α : Type} (ops : List (Op α))
    (hvalid : (Deque.default_ctor : Deque α).no_pop_on_empty ops = true)
    (hint : Deque.reaches_within_int ops = true) :
    ∃ d : Deque α, Deque.default_ctor.run ops = some d ∧
      (∀ k : Nat, k < d.size →
        (Nat.iterate ReverseIterator.operator_inc k d.rbegin).operator_eq d.rend =
          some false ∧
        ∃ v : α,
          (Nat.iterate ReverseIterator.operator_inc k d.rbegin).operator_deref d = some v ∧
          d.operator_subscript (d.size - 1 - k) = some v) ∧
      (Nat.iterate ReverseIterator.operator_inc d.size d.rbegin).operator_eq d.rend =
        some true := by
  obtain ⟨d, hrun, hrepr, _⟩ := Deque.run_repr ops _ [] Deque.default_ctor_repr hvalid
  obtain ⟨hbw, hend⟩ :=
    Deque.reverse_traversal hrepr (Deque.bound_of_reaches_within_int hrun hint)
  refine ⟨d, hrun, ?_, hend⟩
  intro k hk
  obtain ⟨h1, h2, h3⟩ := hbw k hk
  have hsz : d.size_ = (plain_list_run [] ops).length := hrepr.size_eq
  have hk2 : k < d.size_ := hk
  have hlt : d.size_ - 1 - k < (plain_list_run [] ops).length := by omega
  refine ⟨h1, (plain_list_run [] ops)[d.size_ - 1 - k], ?_, ?_⟩
  · rw [h2, h3]
    exact List.getElem?_eq_getElem hlt
  · show d.operator_subscript (d.size_ - 1 - k) = _
    rw [h3]
    exact List.getElem?_eq_getElem hlt

/-- Witness for C10: thirty pushes at the back put the back cursor at the last slot of
its bucket. -/
theorem C10_reverse_iteration_visits_in_reverse_witness :
    ∃ d : Deque Nat,
      Deque.default_ctor.run ((List.range 30).map Op.push_back) = some d ∧
      (∀ k : Nat, k < d.size →
        (Nat.iterate ReverseIterator.operator_inc k d.rbegin).operator_eq d.rend =
          some false ∧
        ∃ v : Nat,
          (Nat.iterate ReverseIterator.operator_inc k d.rbegin).operator_deref d = some v ∧
          d.operator_subscript (d.size - 1 - k) = some v) ∧
      (Nat.iterate ReverseIterator.operator_inc d.size d.rbegin).operator_eq d.rend =
        some true :=
  C10_reverse_iteration_visits_in_reverse ((List.range 30).map Op.push_back) (by decide)
    (by decide)

/-- C11. For every deque and every index `i < size()`, `at(i)` does not throw and
returns the reference (bucket index, offset) that `operator[](i)` resolves `i` to, so
both read the same slot and the same value. -/
theorem C11_at_agrees_with_subscript {α : Type} (d : Deque α) (i : Nat) (hi : i < d.size) :
    (d.at_ i).1 = Except.ok (d.operator_subscript_ref i) ∧
      d.slot (d.operator_subscript_ref i).1 (d.operator_subscript_ref i).2 =
        d.operator_subscript i := by
  have hlt : ¬ i ≥ d.size_ := by
    have : i < d.size_ := hi
    omega
  refine ⟨?_, rfl⟩
  unfold Deque.at_ Deque.operator_subscript_ref
  simp only [hlt, if_false]
  split_ifs <;> rfl

/-- Witness for C11: index 0 of the deque holding `[7]`. -/
theorem C11_at_agrees_with_subscript_witness :
    (Deque.sample.at_ 0).1 = Except.ok (Deque.sample.operator_subscript_ref 0) ∧
      Deque.sample.slot (Deque.sample.operator_subscript_ref 0).1
          (Deque.sample.operator_subscript_ref 0).2 =
        Deque.sample.operator_subscript 0 :=
  C11_at_agrees_with_subscript Deque.sample 0 (by decide)

/-- C12. The deque constructed from the initializer list `{1, 2, 3}` holds `[1, 2, 3]`;
after `push_front(0)` it holds `[0, 1, 2, 3]` and has size 4; after `pop_back()` it
holds `[0, 1, 2]` and has size 3; `at(5)` on that deque throws `out_of_range`. -/
theorem C12_initializer_list_scenario :
    (Deque.initializer_list_ctor [(1 : Int), 2, 3]).map Deque.to_list =
      some [some 1, some 2, some 3] ∧
    ((Deque.initializer_list_ctor [(1 : Int), 2, 3]).bind (fun d => d.push_front 0)).map
        (fun d => (d.to_list, d.size)) =
      some ([some 0, some 1, some 2, some 3], 4) ∧
    (((Deque.initializer_list_ctor [(1 : Int), 2, 3]).bind (fun d => d.push_front 0)).bind
        Deque.pop_back).map (fun d => (d.to_list, d.size)) =
      some ([some 0, some 1, some 2], 3) ∧
    (((Deque.initializer_list_ctor [(1 : Int), 2, 3]).bind (fun d => d.push_front 0)).bind
        Deque.pop_back).map (fun d => (d.at_ 5).1) =
      some (Except.error DequeException.out_of_range) := by
  refine ⟨by decide, by decide, by decide, ?_⟩
  rfl

/-- C14 (evaluation at the failing input). On a default-constructed (empty) deque,
an `emplace_back` whose element construction throws lets the exception propagate with
`size() == 0`, but leaves the back cursor at (bucket 0, offset 1) while the front
cursor is at (bucket 0, offset 2): the catch block steps the back cursor back although
it was not advanced for an empty deque.  A later `push_back(7)` then constructs its
element at offset 1, and `operator[](0)` reads the raw slot at offset 2. -/
theorem C14_failed_emplace_back_on_empty_moves_back_cursor :
    (∃ s : Deque Int,
      (Deque.default_ctor : Deque Int).emplace_back_construct_throws = Outcome.thrown s ∧
      s.size = 0 ∧
      (s.first_element_bucket_, s.first_element_position_) = (0, 2) ∧
      (s.last_element_bucket_, s.last_element_position_) = (0, 1) ∧
      (s.push_back 7).map (fun d => (d.size, d.operator_subscript 0, d.slot 0 1)) =
        some (1, none, some 7)) := by
  refine ⟨_, rfl, ?_⟩
  decide

/-- C15 (evaluation at the failing input). On the deque holding `[1]`, an
`emplace_front` whose element construction throws returns normally (the catch block
has no `throw;`) and leaves `size() == 2` with both cursors on the single live element:
the failed element is counted, and `operator[](1)` reads a raw slot. -/
theorem C15_failed_emplace_front_is_swallowed_and_counted :
    (∃ s : Deque Int,
      (Deque.default_ctor.run [Op.push_back (1 : Int)]).map
          Deque.emplace_front_construct_throws = some (Outcome.returned s) ∧
      s.size = 2 ∧
      (s.first_element_bucket_, s.first_element_position_) =
        (s.last_element_bucket_, s.last_element_position_) ∧
      s.to_list = [some 1, none]) := by
  refine ⟨_, rfl, ?_⟩
  decide

/-- C18 (evaluation at the failing input). On the deque holding `[1]` (capacity 1),
a `reallocation` in which the new map and one bucket are allocated and the next bucket
allocation throws lets the exception propagate with every member of the deque
unchanged, but its allocator calls are: allocate the map of 4 entries, allocate one
bucket, destroy two map entries, deallocate the map.  The bucket that was allocated is
never deallocated. -/
theorem C18_failed_reallocation_leaks_new_buckets :
    (Deque.default_ctor.run [Op.push_back (1 : Int)]).map
        (fun d => decide ((d.reallocation_with_allocator true 1).1 = Outcome.thrown d)) =
      some true ∧
    (Deque.default_ctor.run [Op.push_back (1 : Int)]).map
        (fun d => (d.reallocation_with_allocator true 1).2) =
      some [AllocatorCall.allocate_map 4, AllocatorCall.allocate_bucket,
        AllocatorCall.destroy_map_entry, AllocatorCall.destroy_map_entry,
        AllocatorCall.deallocate_map 4] ∧
    (Deque.default_ctor.run [Op.push_back (1 : Int)]).map
        (fun d => ((d.reallocation_with_allocator true 1).2.count AllocatorCall.allocate_bucket,
          (d.reallocation_with_allocator true 1).2.count AllocatorCall.deallocate_bucket)) =
      some (1, 0) := by
  decide

namespace Iterator

theorem tdiv_32_of_nonneg (a : Int) (h : 0 ≤ a) : Int.tdiv a (kBucketSize : Int) = a / 32 :=
  Int.tdiv_eq_ediv h (by decide)

theorem tmod_32_of_nonneg (a : Int) (h : 0 ≤ a) : Int.tmod a (kBucketSize : Int) = a % 32 :=
  Int.tmod_eq_emod h (by decide)

theorem operator_add_assign_flat (it : Iterator) (n : Int) :
    (it.operator_add_assign n).bucket_number_ * 32 + (it.operator_add_assign n).position_ =
      it.bucket_number_ * 32 + it.position_ + n := by
  unfold operator_add_assign
  split_ifs with h
  · dsimp only
    omega
  · have hk : ((kBucketSize : Nat) : Int) = 32 := rfl
    rw [hk] at h
    have hn : 0 ≤ n - ((kBucketSize : Int) - it.position_) := by
      rw [hk]
      omega
    dsimp only
    rw [tdiv_32_of_nonneg _ hn, tmod_32_of_nonneg _ hn, hk]
    omega

theorem operator_add_assign_offset (it : Iterator) (n : Int) :
    (0 ≤ (it.operator_add_assign n).position_ ∧ (it.operator_add_assign n).position_ < 32) ↔
      -it.position_ ≤ n := by
  unfold operator_add_assign
  have hk : ((kBucketSize : Nat) : Int) = 32 := rfl
  split_ifs with h
  · rw [hk] at h
    dsimp only
    omega
  · rw [hk] at h
    have hn : 0 ≤ n - ((kBucketSize : Int) - it.position_) := by
      rw [hk]
      omega
    dsimp only
    rw [tmod_32_of_nonneg _ hn, hk]
    omega

theorem operator_sub_assign_flat (it : Iterator) (n : Int) :
    (it.operator_sub_assign n).bucket_number_ * 32 + (it.operator_sub_assign n).position_ =
      it.bucket_number_ * 32 + it.position_ - n := by
  unfold operator_sub_assign
  have hk : ((kBucketSize : Nat) : Int) = 32 := rfl
  split_ifs with h
  · dsimp only
    omega
  · have hn : 0 ≤ n - (it.position_ + 1) := by omega
    dsimp only
    rw [tdiv_32_of_nonneg _ hn, tmod_32_of_nonneg _ hn, hk]
    omega

theorem operator_sub_assign_offset (it : Iterator) (n : Int) :
    (0 ≤ (it.operator_sub_assign n).position_ ∧ (it.operator_sub_assign n).position_ < 32) ↔
      it.position_ - 31 ≤ n := by
  unfold operator_sub_assign
  have hk : ((kBucketSize : Nat) : Int) = 32 := rfl
  split_ifs with h
  · dsimp only
    omega
  · have hn : 0 ≤ n - (it.position_ + 1) := by omega
    dsimp only
    rw [tmod_32_of_nonneg _ hn, hk]
    omega

/-- For every iterator with bucket index `b` and offset `p` and every integer `n`,
`it += n` yields an iterator whose flattened coordinate `bucket * 32 + offset` is
`32 * b + p + n`, and whose offset lies in `[0, 32)` exactly when `n >= -p`; `it -= n`
yields flattened coordinate `32 * b + p - n`, with offset in `[0, 32)` exactly when
`n >= p - 31`. -/
theorem step_flat_coordinate_and_offset (it : Iterator) (n : Int) :
    (it.operator_add_assign n).bucket_number_ * 32 + (it.operator_add_assign n).position_ =
        32 * it.bucket_number_ + it.position_ + n ∧
      ((0 ≤ (it.operator_add_assign n).position_ ∧ (it.operator_add_assign n).position_ < 32) ↔
        -it.position_ ≤ n) ∧
      (it.operator_sub_assign n).bucket_number_ * 32 + (it.operator_sub_assign n).position_ =
        32 * it.bucket_number_ + it.position_ - n ∧
      ((0 ≤ (it.operator_sub_assign n).position_ ∧ (it.operator_sub_assign n).position_ < 32) ↔
        it.position_ - 31 ≤ n) := by
  refine ⟨?_, operator_add_assign_offset it n, ?_, operator_sub_assign_offset it n⟩
  · rw [operator_add_assign_flat]
    omega
  · rw [operator_sub_assign_flat]
    omega

theorem operator_add_of_flat (k n : Nat) :
    (of_flat k).operator_add (n : Int) = of_flat (k + n) := by
  have hflat := operator_add_assign_flat (of_flat k) (n : Int)
  have hoff := (operator_add_assign_offset (of_flat k) (n : Int)).2
    (by unfold of_flat; dsimp only; omega)
  unfold operator_add
  generalize (of_flat k).operator_add_assign (n : Int) = r at hflat hoff
  unfold of_flat at hflat ⊢
  dsimp only at hflat
  cases r with
  | mk b p =>
    dsimp only at hflat hoff
    rw [Iterator.mk.injEq]
    constructor <;> omega

end Iterator

/-- C16 (evaluation at the failing inputs). The iterator at bucket 1, offset 0 and
`n = -1` satisfy `32 * 1 + 0 + n >= 0`, and `it += n` yields bucket 1, offset -1: the
offset is not in `[0, 32)`.  Likewise `it -= n` on bucket 1, offset 31 yields
offset 32. -/
theorem C16_negative_step_leaves_offset_out_of_range :
    (0 : Int) ≤ 32 * 1 + 0 + (-1) ∧
    Iterator.operator_add_assign { bucket_number_ := 1, position_ := 0 } (-1) =
      { bucket_number_ := 1, position_ := -1 } ∧
    Iterator.operator_sub_assign { bucket_number_ := 1, position_ := 31 } (-1) =
      { bucket_number_ := 1, position_ := 32 } := by
  decide
/-- C17 (counterexample). The deque reached by `2^31` calls of `push_back(0)` has
`size() == 2^31`, and `end() - begin()` is undefined: the flattened coordinate
`bucket_number_ * kBucketSize + position_` of `end()` is at least `2^31` and overflows
the `int` it is computed in, and no `int` equals `size()`. -/
theorem C17_end_minus_begin_overflows_int :
    ∃ d : Deque Int,
      Deque.default_ctor.run (List.replicate (2 ^ 31) (Op.push_back 0)) = some d ∧
      d.size = 2 ^ 31 ∧
      d.end_.operator_diff d.begin = none ∧
      d.end_.operator_diff d.begin ≠ some (d.size : Int) ∧
      int_result (d.size : Int) = none := by
  obtain ⟨d, l, hrun, hrepr, hsize⟩ := Deque.run_push_backs (2 ^ 31) (0 : Int)
  have hnone := Deque.end_flattened_none hrepr (Nat.le_of_eq hsize.symm)
  have hdiff : d.end_.operator_diff d.begin = none :=
    Iterator.operator_diff_none_of_left _ _ hnone
  refine ⟨d, hrun, hsize, hdiff, ?_, ?_⟩
  · rw [hdiff]
    exact Option.noConfusion
  · have hs : d.size = 2 ^ 31 := hsize
    rw [hs]
    decide

/-- C17 (amended). For every deque reached from a default-constructed one by pushes and
pops (no pop on an empty deque) whose `end()` has a flattened coordinate below `2^31`,
and all `i, j <= size()`, the iterator difference `(begin() + i) - (begin() + j)` is
defined and is the signed integer `i - j`, and `end() - begin()` is defined and equals
`size()`. -/
theorem C17_iterator_difference_is_index_difference {α : Type} (ops : List (Op α))
    (hvalid : (Deque.default_ctor : Deque α).no_pop_on_empty ops = true)
    (hint : Deque.reaches_within_int ops = true) :
    ∃ d : Deque α, Deque.default_ctor.run ops = some d ∧
      (∀ i j : Nat, i ≤ d.size → j ≤ d.size →
        (d.begin.operator_add (i : Int)).operator_diff (d.begin.operator_add (j : Int)) =
          some ((i : Int) - (j : Int))) ∧
      d.end_.operator_diff d.begin = some (d.size : Int) := by
  obtain ⟨d, hrun, hrepr, _⟩ := Deque.run_repr ops _ [] Deque.default_ctor_repr hvalid
  have hbound := Deque.bound_of_reaches_within_int hrun hint
  have hspan := hrepr.span
  have hl := hrepr.last_lt
  have hf := hrepr.first_lt
  refine ⟨d, hrun, ?_, ?_⟩
  · intro i j hi hj
    have hi2 : i ≤ d.size_ := hi
    have hj2 : j ≤ d.size_ := hj
    have hfit : d.first_element_bucket_ * 32 + d.first_element_position_ + d.size_ <
        2 ^ 31 := by
      by_cases hz : d.size_ = 0
      · rw [if_pos hz] at hspan
        omega
      · rw [if_neg hz] at hspan
        omega
    rw [Deque.begin_eq_of_flat hrepr, Iterator.operator_add_of_flat,
      Iterator.operator_add_of_flat,
      Iterator.operator_diff_of_flat _ _ (by omega) (by omega)]
    congr 1
    omega
  · rw [Deque.begin_eq_of_flat hrepr]
    show _ = some (d.size_ : Int)
    by_cases hz : d.size_ = 0
    · rw [if_pos hz] at hspan
      have hend : d.end_ = Iterator.ctor d.last_element_bucket_ d.last_element_position_ := by
        simp [Deque.end_, Deque.empty, hz]
      rw [hend, Iterator.operator_diff_ctor_of_flat _ _ _ (by omega) (by omega), hspan.1,
        hspan.2]
      congr 1
      omega
    · rw [if_neg hz] at hspan
      have hend : d.end_ =
          Iterator.ctor d.last_element_bucket_ (d.last_element_position_ + 1) := by
        simp [Deque.end_, Deque.empty, hz]
      rw [hend, Iterator.operator_diff_ctor_of_flat _ _ _ (by omega) (by omega)]
      congr 1
      omega

/-- Witness for C17: a deque that has grown at both ends. -/
theorem C17_iterator_difference_is_index_difference_witness :
    ∃ d : Deque Int,
      Deque.default_ctor.run [Op.push_back 1, Op.push_front 0, Op.push_back 2] = some d ∧
      (∀ i j : Nat, i ≤ d.size → j ≤ d.size →
        (d.begin.operator_add (i : Int)).operator_diff (d.begin.operator_add (j : Int)) =
          some ((i : Int) - (j : Int))) ∧
      d.end_.operator_diff d.begin = some (d.size : Int) :=
  C17_iterator_difference_is_index_difference
    [Op.push_back 1, Op.push_front 0, Op.push_back 2] (by decide) (by decide)

namespace Deque

variable {α : Type}

theorem map_ok_check_iff (d : Deque α) : d.map_ok_check = true ↔ d.map_ok := by
  unfold map_ok_check map_ok
  cases d.container_ with
  | none => simp
  | some m => simp

theorem invariant_iff (d : Deque α) :
    d.invariant = true ↔
      d.map_ok ∧ d.first_element_position_ < 32 ∧ d.last_element_position_ < 32 ∧
      (d.last_element_bucket_ < d.container_capacity_ ∨
        (d.container_capacity_ = 0 ∧ d.last_element_bucket_ = 0 ∧ d.size_ = 0)) ∧
      (if d.size_ = 0 then
        d.first_element_bucket_ = d.last_element_bucket_ ∧
          d.first_element_position_ = d.last_element_position_
      else
        d.last_element_bucket_ * 32 + d.last_element_position_ + 1 =
          d.first_element_bucket_ * 32 + d.first_element_position_ + d.size_) := by
  unfold invariant
  rw [← map_ok_check_iff]
  by_cases hz : d.size_ = 0
  · simp [hz, and_assoc]
  · simp [hz, and_assoc]

theorem repr_invariant {d : Deque α} {l : List α} (h : d.Repr l) : d.invariant = true :=
  (invariant_iff d).2 ⟨h.map_wf, h.first_lt, h.last_lt, h.bucket_ok, h.span⟩

theorem run_invariant (ops : List (Op α))
    (hvalid : (default_ctor : Deque α).no_pop_on_empty ops = true) :
    ∃ d : Deque α, default_ctor.run ops = some d ∧ d.invariant = true := by
  obtain ⟨d, hrun, hrepr, _⟩ := run_repr ops _ [] default_ctor_repr hvalid
  exact ⟨d, hrun, repr_invariant hrepr⟩

theorem moved_buckets_some (d : Deque α) :
    ∀ (n : Nat) (mv : List (Bucket α)), d.moved_buckets n = some mv →
      mv.length = n ∧
      ∀ i : Nat, i < n → ∃ (m : List (Bucket α)) (bucket : Bucket α),
        d.container_ = some m ∧ m[i]? = some bucket ∧ mv[i]? = some bucket
  | 0, mv, h => by
    simp only [moved_buckets, Option.some.injEq] at h
    subst h
    exact ⟨rfl, fun i hi => absurd hi (Nat.not_lt_zero i)⟩
  | n + 1, mv, h => by
    unfold moved_buckets at h
    cases hfront : d.moved_buckets n with
    | none => simp [hfront] at h
    | some front =>
      cases hm : d.container_ with
      | none => simp [hfront, hm] at h
      | some m =>
        cases hb : m[n]? with
        | none => simp [hfront, hm, hb] at h
        | some bucket =>
          simp only [hfront, hm, hb, Option.some.injEq] at h
          subst h
          obtain ⟨hlen, hall⟩ := moved_buckets_some d n front hfront
          refine ⟨by simp [hlen], ?_⟩
          intro i hi
          by_cases hin : i < n
          · obtain ⟨m1, b1, hm1, hb1, hf1⟩ := hall i hin
            refine ⟨m1, b1, hm.symm.trans hm1, hb1, ?_⟩
            rw [List.getElem?_append_left (by omega)]
            exact hf1
          · have hieq : i = n := by omega
            subst hieq
            refine ⟨m, bucket, rfl, hb, ?_⟩
            rw [List.getElem?_append_right (by omega)]
            simp [hlen]

end Deque

/-- C13. For every deque satisfying the cursor invariant (an empty one included),
`reallocation()` with every allocation succeeding leaves `size()` unchanged and leaves
`operator[](i)` unchanged for every `i < size()`; the invariant still holds
afterwards. -/
theorem C13_reallocation_preserves_contents {α : Type} (d : Deque α)
    (hinv : d.invariant = true) :
    ∃ d1 : Deque α, d.reallocation = some d1 ∧ d1.size = d.size ∧
      (∀ i : Nat, i < d.size → d1.operator_subscript i = d.operator_subscript i) ∧
      d1.invariant = true := by
  obtain ⟨hok, hf, hl, hbk, hspan⟩ := (Deque.invariant_iff d).1 hinv
  obtain ⟨d1, hr, hcap, hsize, hfb, hfp, hlb, hlp, hok1, hslot⟩ := Deque.reallocation_spec hok
  refine ⟨d1, hr, hsize, ?_, ?_⟩
  · intro i hi
    have hi2 : i < d.size_ := hi
    have hne : d.size_ ≠ 0 := by omega
    rw [if_neg hne] at hspan
    rw [Deque.operator_subscript_eq_flat d1 (by omega), Deque.operator_subscript_eq_flat d hf,
      hfb, hfp]
    have hlt : d.first_element_bucket_ * 32 + d.first_element_position_ + i <
        d.container_capacity_ * 32 := by omega
    rw [← hslot _ hlt]
    exact Deque.flat_slot_congr rfl (by omega)
  · rw [Deque.invariant_iff]
    refine ⟨hok1, by omega, by omega, by omega, ?_⟩
    rw [hsize, hfb, hfp, hlb, hlp]
    split_ifs at hspan ⊢ <;> omega

/-- Witness for C13: the deque holding `[7]`. -/
theorem C13_reallocation_preserves_contents_witness :
    ∃ d1 : Deque Int, Deque.sample.reallocation = some d1 ∧ d1.size = Deque.sample.size ∧
      (∀ i : Nat, i < Deque.sample.size →
        d1.operator_subscript i = Deque.sample.operator_subscript i) ∧
      d1.invariant = true :=
  C13_reallocation_preserves_contents Deque.sample (by decide)

/-- C20. Every successful `reallocation()` of a deque with capacity `c` (zero included)
sets `container_capacity_` to `3 * c + 1`; the new map has `3 * c + 1` entries, entry
`c + i` is the bucket that was at entry `i` of the old map for every `i < c`, and the
entries `0 .. c - 1` and `2 * c .. 3 * c` are newly allocated buckets; `c` is added to
`first_element_bucket_` and `last_element_bucket_`; both offsets and `size_` are
unchanged. -/
theorem C20_reallocation_layout {α : Type} (d d1 : Deque α)
    (h : d.reallocation = some d1) :
    d1.container_capacity_ = 3 * d.container_capacity_ + 1 ∧
    (∃ m1 : List (Bucket α), d1.container_ = some m1 ∧
      m1.length = 3 * d.container_capacity_ + 1 ∧
      (∀ i : Nat, i < d.container_capacity_ → ∃ (m : List (Bucket α)) (bucket : Bucket α),
        d.container_ = some m ∧ m[i]? = some bucket ∧
          m1[d.container_capacity_ + i]? = some bucket) ∧
      (∀ i : Nat, i < d.container_capacity_ ∨
          (2 * d.container_capacity_ ≤ i ∧ i < 3 * d.container_capacity_ + 1) →
        m1[i]? = some fresh_bucket)) ∧
    d1.first_element_bucket_ = d.first_element_bucket_ + d.container_capacity_ ∧
    d1.last_element_bucket_ = d.last_element_bucket_ + d.container_capacity_ ∧
    d1.first_element_position_ = d.first_element_position_ ∧
    d1.last_element_position_ = d.last_element_position_ ∧
    d1.size_ = d.size_ := by
  unfold Deque.reallocation at h
  cases hmv : d.moved_buckets d.container_capacity_ with
  | none => simp [hmv] at h
  | some moved =>
    simp only [hmv, Option.some.injEq] at h
    subst h
    obtain ⟨hlen, hall⟩ := Deque.moved_buckets_some d _ moved hmv
    refine ⟨by dsimp only; omega, ⟨_, rfl, ?_, ?_, ?_⟩, by dsimp only; omega,
      by dsimp only; omega, rfl, rfl, rfl⟩
    · simp only [List.length_append, List.length_replicate, hlen]
      omega
    · intro i hi
      obtain ⟨m, bucket, hm, hb, hmvi⟩ := hall i hi
      refine ⟨m, bucket, hm, hb, ?_⟩
      rw [List.append_assoc, List.getElem?_append_right (by simp)]
      simp only [List.length_replicate, Nat.add_sub_cancel_left]
      rw [List.getElem?_append_left (by omega)]
      exact hmvi
    · intro i hi
      rcases hi with hi | ⟨hi1, hi2⟩
      · rw [List.append_assoc, List.getElem?_append_left (by simp; exact hi)]
        simp [hi]
      · rw [List.getElem?_append_right (by simp [hlen]; omega)]
        simp only [List.length_append, List.length_replicate, hlen]
        rw [List.getElem?_replicate]
        simp
        omega

/-- Witness for C20: the reallocation of the deque holding `[7]`. -/
theorem C20_reallocation_layout_witness :
    Deque.sample_reallocated.container_capacity_ = 3 * Deque.sample.container_capacity_ + 1 ∧
    (∃ m1 : List (Bucket Int), Deque.sample_reallocated.container_ = some m1 ∧
      m1.length = 3 * Deque.sample.container_capacity_ + 1 ∧
      (∀ i : Nat, i < Deque.sample.container_capacity_ →
        ∃ (m : List (Bucket Int)) (bucket : Bucket Int),
          Deque.sample.container_ = some m ∧ m[i]? = some bucket ∧
            m1[Deque.sample.container_capacity_ + i]? = some bucket) ∧
      (∀ i : Nat, i < Deque.sample.container_capacity_ ∨
          (2 * Deque.sample.container_capacity_ ≤ i ∧
            i < 3 * Deque.sample.container_capacity_ + 1) →
        m1[i]? = some fresh_bucket)) ∧
    Deque.sample_reallocated.first_element_bucket_ =
      Deque.sample.first_element_bucket_ + Deque.sample.container_capacity_ ∧
    Deque.sample_reallocated.last_element_bucket_ =
      Deque.sample.last_element_bucket_ + Deque.sample.container_capacity_ ∧
    Deque.sample_reallocated.first_element_position_ = Deque.sample.first_element_position_ ∧
    Deque.sample_reallocated.last_element_position_ = Deque.sample.last_element_position_ ∧
    Deque.sample_reallocated.size_ = Deque.sample.size_ :=
  C20_reallocation_layout Deque.sample Deque.sample_reallocated (by decide)

namespace Deque

variable {α : Type}

end Deque

/-- C21. For every front cursor with offset below 32 and every index `i`, the
(bucket, offset) pair that `operator[]` resolves `i` to has offset below 32 and
flattened coordinate `fb * 32 + p + i`; it is `(fb, p + i)` when `i <= 31 - p` and
`(fb + 1 + (i - (32 - p)) / 32, (i - (32 - p)) % 32)` otherwise.  Member `at` returns
that same pair for every `i < size()`, leaving the deque as it was, and throws
`std::out_of_range` for every `i >= size()`. -/
theorem C21_index_resolution {α : Type} (d : Deque α) (i : Nat)
    (hp : d.first_element_position_ < 32) :
    (d.operator_subscript_ref i).2 < 32 ∧
    (d.operator_subscript_ref i).1 * 32 + (d.operator_subscript_ref i).2 =
      d.first_element_bucket_ * 32 + d.first_element_position_ + i ∧
    (i ≤ 31 - d.first_element_position_ →
      d.operator_subscript_ref i =
        (d.first_element_bucket_, d.first_element_position_ + i)) ∧
    (31 - d.first_element_position_ < i →
      d.operator_subscript_ref i =
        (d.first_element_bucket_ + 1 + (i - (32 - d.first_element_position_)) / 32,
          (i - (32 - d.first_element_position_)) % 32)) ∧
    (i < d.size → d.at_ i = (Except.ok (d.operator_subscript_ref i), d)) ∧
    (d.size ≤ i → d.at_ i = (Except.error DequeException.out_of_range, d)) := by
  refine ⟨?_, ?_, ?_, ?_, ?_, ?_⟩
  · rw [Deque.operator_subscript_ref_eq d hp]
    dsimp only
    omega
  · rw [Deque.operator_subscript_ref_eq d hp]
    dsimp only
    omega
  · intro hi
    rw [Deque.operator_subscript_ref_eq d hp]
    apply Prod.ext <;> dsimp only <;> omega
  · intro hi
    rw [Deque.operator_subscript_ref_eq d hp]
    apply Prod.ext <;> dsimp only <;> omega
  · intro hi
    have h1 : ¬ i ≥ d.size_ := Nat.not_le.mpr hi
    unfold Deque.at_ Deque.operator_subscript_ref
    rw [if_neg h1]
    by_cases h2 : i ≤ sub_size_t (sub_size_t kBucketSize d.first_element_position_) 1
    · rw [if_pos h2, if_pos h2]
    · rw [if_neg h2, if_neg h2]
  · intro hi
    have h1 : i ≥ d.size_ := hi
    unfold Deque.at_
    rw [if_pos h1]

/-- Witness for C21: index 40 of the deque built by `Deque(70, 5)`, whose front cursor
is (bucket 0, offset 0); `40 < size()`, and both `operator[]` and `at` resolve the index
to (bucket 1, offset 8). -/
theorem C21_index_resolution_witness :
    Deque.fill_ctor 70 (5 : Int) = some Deque.sample_seventy ∧
    Deque.sample_seventy.first_element_position_ < 32 ∧
    40 < Deque.sample_seventy.size ∧
    Deque.sample_seventy.at_ 40 = (Except.ok (1, 8), Deque.sample_seventy) ∧
    ((Deque.sample_seventy.operator_subscript_ref 40).2 < 32 ∧
    (Deque.sample_seventy.operator_subscript_ref 40).1 * 32 +
        (Deque.sample_seventy.operator_subscript_ref 40).2 =
      Deque.sample_seventy.first_element_bucket_ * 32 +
        Deque.sample_seventy.first_element_position_ + 40 ∧
    (40 ≤ 31 - Deque.sample_seventy.first_element_position_ →
      Deque.sample_seventy.operator_subscript_ref 40 =
        (Deque.sample_seventy.first_element_bucket_,
          Deque.sample_seventy.first_element_position_ + 40)) ∧
    (31 - Deque.sample_seventy.first_element_position_ < 40 →
      Deque.sample_seventy.operator_subscript_ref 40 =
        (Deque.sample_seventy.first_element_bucket_ + 1 +
            (40 - (32 - Deque.sample_seventy.first_element_position_)) / 32,
          (40 - (32 - Deque.sample_seventy.first_element_position_)) % 32)) ∧
    (40 < Deque.sample_seventy.size →
      Deque.sample_seventy.at_ 40 =
        (Except.ok (Deque.sample_seventy.operator_subscript_ref 40), Deque.sample_seventy)) ∧
    (Deque.sample_seventy.size ≤ 40 →
      Deque.sample_seventy.at_ 40 =
        (Except.error DequeException.out_of_range, Deque.sample_seventy))) :=
  ⟨by decide, by decide, by decide,
    (C21_index_resolution Deque.sample_seventy 40 (by decide)).2.2.2.2.1 (by decide),
    C21_index_resolution Deque.sample_seventy 40 (by decide)⟩

/-- C22. Every state reached from a default-constructed deque by `push_back`,
`push_front`, `pop_back` and `pop_front` (no pop on an empty deque) has both in-bucket
offsets below 32; if `container_capacity_ > 0` then
`first_element_bucket_ <= last_element_bucket_ < container_capacity_`; if `size > 0`
the front flattened coordinate is at most the back one and their difference plus one
is `size`; if `size == 0` the front cursor equals the back cursor. -/
theorem C22_reachable_cursor_invariant {α : Type} (ops : List (Op α))
    (hvalid : (Deque.default_ctor : Deque α).no_pop_on_empty ops = true) :
    ∃ d : Deque α, Deque.default_ctor.run ops = some d ∧
      d.first_element_position_ < 32 ∧ d.last_element_position_ < 32 ∧
      (0 < d.container_capacity_ →
        d.first_element_bucket_ ≤ d.last_element_bucket_ ∧
          d.last_element_bucket_ < d.container_capacity_) ∧
      (0 < d.size →
        d.first_element_bucket_ * 32 + d.first_element_position_ ≤
            d.last_element_bucket_ * 32 + d.last_element_position_ ∧
          (d.last_element_bucket_ * 32 + d.last_element_position_) -
              (d.first_element_bucket_ * 32 + d.first_element_position_) + 1 = d.size) ∧
      (d.size = 0 →
        d.first_element_bucket_ = d.last_element_bucket_ ∧
          d.first_element_position_ = d.last_element_position_) := by
  obtain ⟨d, hrun, hrepr, _⟩ := Deque.run_repr ops _ [] Deque.default_ctor_repr hvalid
  have hspan := hrepr.span
  have hbk := hrepr.bucket_ok
  have hf := hrepr.first_lt
  have hl := hrepr.last_lt
  refine ⟨d, hrun, hf, hl, ?_, ?_, ?_⟩
  · intro hc
    split_ifs at hspan <;> omega
  · intro hs
    have hs2 : 0 < d.size_ := hs
    show _ ∧ _ = d.size_
    split_ifs at hspan <;> omega
  · intro hs
    have hs2 : d.size_ = 0 := hs
    rw [if_pos hs2] at hspan
    exact hspan

/-- Witness for C22: forty pushes at the front, then a pop at the back. -/
theorem C22_reachable_cursor_invariant_witness :
    ∃ d : Deque Nat,
      Deque.default_ctor.run ((List.range 40).map Op.push_front ++ [Op.pop_back]) = some d ∧
      d.first_element_position_ < 32 ∧ d.last_element_position_ < 32 ∧
      (0 < d.container_capacity_ →
        d.first_element_bucket_ ≤ d.last_element_bucket_ ∧
          d.last_element_bucket_ < d.container_capacity_) ∧
      (0 < d.size →
        d.first_element_bucket_ * 32 + d.first_element_position_ ≤
            d.last_element_bucket_ * 32 + d.last_element_position_ ∧
          (d.last_element_bucket_ * 32 + d.last_element_position_) -
              (d.first_element_bucket_ * 32 + d.first_element_position_) + 1 = d.size) ∧
      (d.size = 0 →
        d.first_element_bucket_ = d.last_element_bucket_ ∧
          d.first_element_position_ = d.last_element_position_) :=
  C22_reachable_cursor_invariant ((List.range 40).map Op.push_front ++ [Op.pop_back])
    (by decide)

/-- C24 (evaluation at the failing input). The copy of a default-constructed deque has
`size() == 0`, a null map and `container_capacity_ == 2^59`, so it does not satisfy the
invariant; `push_back(1)` on it finds `container_capacity_ != 0`, skips
`reallocation()` and constructs through the null map. -/
theorem C24_copy_of_default_deque_has_capacity_without_map :
    (Deque.copy_ctor (Deque.default_ctor : Deque Int)).map
        (fun c => (c.size, c.container_capacity_, c.container_.isNone, c.invariant)) =
      some (0, 2 ^ 59, true, false) ∧
    ((Deque.copy_ctor (Deque.default_ctor : Deque Int)).bind Deque.grow_back).map
        (fun g => (g.container_capacity_, g.container_.isNone)) = some (2 ^ 59, true) ∧
    ((Deque.copy_ctor (Deque.default_ctor : Deque Int)).map
        (fun c => (c.push_back 1).isNone)) = some true := by
  decide

namespace Deque

variable {α : Type}

theorem fill_bucket_spec (v : α) :
    ∀ (n : Nat) (bucket : Bucket α) (position : Nat), position + n ≤ bucket.length →
      ∃ b : Bucket α, fill_bucket v n bucket position = some b ∧ b.length = bucket.length ∧
        (∀ p : Nat, p < position → b[p]? = bucket[p]?) ∧
        (∀ p : Nat, position ≤ p → p < position + n → b[p]? = some (some v))
  | 0, bucket, position, _ =>
    ⟨bucket, rfl, rfl, fun _ _ => rfl, fun p h1 h2 => absurd h2 (by omega)⟩
  | n + 1, bucket, position, h => by
    have hlt : position < bucket.length := by omega
    obtain ⟨b, hb, hlen, hlow, hhigh⟩ :=
      fill_bucket_spec v n (bucket.set position (some v)) (position + 1)
        (by rw [List.length_set]; omega)
    refine ⟨b, ?_, ?_, ?_, ?_⟩
    · unfold fill_bucket
      rw [if_pos hlt]
      exact hb
    · rw [hlen, List.length_set]
    · intro p hp
      rw [hlow p (by omega), List.getElem?_set_ne (by omega)]
    · intro p hp1 hp2
      by_cases hpe : p = position
      · subst hpe
        rw [hlow p (by omega), List.getElem?_set_self hlt]
      · exact hhigh p (by omega) (by omega)

theorem fill_buckets_spec (cap size : Nat) (v : α) :
    ∀ (n cur : Nat), ∃ m : List (Bucket α),
      fill_buckets cap size v n cur = some m ∧ m.length = n ∧
      ∀ j : Nat, j < n → ∃ bucket : Bucket α, m[j]? = some bucket ∧ bucket.length = 32 ∧
        ∀ p : Nat,
          p < (if cur + j = sub_size_t cap 1 then sub_size_t size 1 % 32 + 1 else 32) →
            bucket[p]? = some (some v)
  | 0, _ => ⟨[], rfl, rfl, fun j hj => absurd hj (Nat.not_lt_zero j)⟩
  | n + 1, cur => by
    have hfin : (if cur = sub_size_t cap 1 then sub_size_t size 1 % kBucketSize + 1
        else kBucketSize) ≤ (fresh_bucket : Bucket α).length := by
      rw [fresh_bucket_length, kBucketSize_eq]
      split_ifs <;> omega
    obtain ⟨b, hb, hblen, _, hbhigh⟩ := fill_bucket_spec v
      (if cur = sub_size_t cap 1 then sub_size_t size 1 % kBucketSize + 1 else kBucketSize)
      (fresh_bucket : Bucket α) 0 (by rw [Nat.zero_add]; exact hfin)
    obtain ⟨rest, hrest, hrlen, hrall⟩ := fill_buckets_spec cap size v n (cur + 1)
    refine ⟨b :: rest, ?_, by simp [hrlen], ?_⟩
    · unfold fill_buckets
      simp only [hb, hrest]
    · intro j hj
      cases j with
      | zero =>
        refine ⟨b, List.getElem?_cons_zero, by rw [hblen, fresh_bucket_length], ?_⟩
        intro p hp
        rw [Nat.add_zero] at hp
        rw [kBucketSize_eq] at hbhigh
        exact hbhigh p (Nat.zero_le p) (by rw [Nat.zero_add]; exact hp)
      | succ k =>
        obtain ⟨bucket, hbk, hlen, hall⟩ := hrall k (by omega)
        refine ⟨bucket, by rw [List.getElem?_cons_succ]; exact hbk, hlen, ?_⟩
        intro p hp
        have hidx : cur + (k + 1) = cur + 1 + k := by omega
        rw [hidx] at hp
        exact hall p hp

theorem fill_ctor_spec (count : Nat) (v : α) :
    ∃ m : List (Bucket α),
      fill_ctor count v = some
        { container_capacity_ := sub_size_t count 1 / kBucketSize + 1
          size_ := count
          container_ := some m
          last_element_position_ := sub_size_t count 1 % kBucketSize
          last_element_bucket_ := sub_size_t (sub_size_t count 1 / kBucketSize + 1) 1
          first_element_bucket_ := 0
          first_element_position_ := 0 } ∧
      m.length = sub_size_t count 1 / kBucketSize + 1 ∧
      ∀ j : Nat, j < sub_size_t count 1 / kBucketSize + 1 →
        ∃ bucket : Bucket α, m[j]? = some bucket ∧ bucket.length = 32 ∧
          ∀ p : Nat,
            p < (if 0 + j = sub_size_t (sub_size_t count 1 / kBucketSize + 1) 1 then
              sub_size_t count 1 % 32 + 1 else 32) →
              bucket[p]? = some (some v) := by
  obtain ⟨m, hm, hlen, hall⟩ :=
    fill_buckets_spec (sub_size_t count 1 / kBucketSize + 1) count v
      (sub_size_t count 1 / kBucketSize + 1) 0
  refine ⟨m, ?_, hlen, hall⟩
  unfold fill_ctor
  simp only [hm]

theorem count_ctor_eq_fill_ctor (count : Nat) (v : α) : count_ctor count v = fill_ctor count v :=
  rfl

end Deque

/-- C23 (evaluation at the failing inputs). For `count == 0` the bucket count
`(count - 1) / 32 + 1` is `2^59` in `size_t` arithmetic.  With every allocation
succeeding, `Deque(0, value)` and `Deque(0)` return a deque with `size() == 0`,
`container_capacity_ == 2^59` and a map of `2^59` buckets; the constructor from an
empty initializer list reads `*value` at the end of the list while filling the first
bucket. -/
theorem C23_zero_count_computes_two_pow_59_buckets :
    sub_size_t 0 1 / kBucketSize + 1 = 2 ^ 59 ∧
    (∃ d : Deque Int, Deque.fill_ctor 0 7 = some d ∧ d.size = 0 ∧
      d.container_capacity_ = 2 ^ 59 ∧
      ∃ m : List (Bucket Int), d.container_ = some m ∧ m.length = 2 ^ 59) ∧
    (∃ d : Deque Int, Deque.count_ctor 0 0 = some d ∧ d.size = 0 ∧
      d.container_capacity_ = 2 ^ 59 ∧
      ∃ m : List (Bucket Int), d.container_ = some m ∧ m.length = 2 ^ 59) ∧
    Deque.initializer_list_ctor ([] : List Int) = none := by
  have hcap : sub_size_t 0 1 / kBucketSize + 1 = 2 ^ 59 := by decide
  refine ⟨hcap, ?_, ?_, by decide⟩
  · obtain ⟨m, hm, hlen, _⟩ := Deque.fill_ctor_spec 0 (7 : Int)
    exact ⟨_, hm, rfl, hcap, m, rfl, by rw [hlen, hcap]⟩
  · obtain ⟨m, hm, hlen, _⟩ := Deque.fill_ctor_spec 0 (0 : Int)
    exact ⟨_, hm, rfl, hcap, m, rfl, by rw [hlen, hcap]⟩

/-- C26. For every `count >= 1` and every value `v`, the constructor
`Deque(count, v)` returns a deque with `size() == count`, `operator[](i) == v` for every
`i < count`, `container_capacity_ == (count - 1) / 32 + 1`, the front cursor at
(bucket 0, offset 0) and the back cursor at
(bucket `(count - 1) / 32`, offset `(count - 1) % 32`). -/
theorem C26_fill_constructor {α : Type} (count : Nat) (v : α) (hcount : 1 ≤ count) :
    ∃ d : Deque α, Deque.fill_ctor count v = some d ∧ d.size = count ∧
      (∀ i : Nat, i < count → d.operator_subscript i = some v) ∧
      d.container_capacity_ = (count - 1) / 32 + 1 ∧
      (d.first_element_bucket_, d.first_element_position_) = (0, 0) ∧
      (d.last_element_bucket_, d.last_element_position_) =
        ((count - 1) / 32, (count - 1) % 32) := by
  obtain ⟨m, hm, hlen, hall⟩ := Deque.fill_ctor_spec count v
  have h1 : sub_size_t count 1 = count - 1 := Deque.sub_size_t_of_le hcount
  have h2 : sub_size_t ((count - 1) / 32 + 1) 1 = (count - 1) / 32 :=
    Deque.sub_size_t_of_le (by omega)
  rw [h1, Deque.kBucketSize_eq, h2] at hm hall
  rw [h1, Deque.kBucketSize_eq] at hlen
  refine ⟨_, hm, rfl, ?_, rfl, rfl, rfl⟩
  intro i hi
  rw [Deque.operator_subscript_eq_flat _ (show (0 : Nat) < 32 by omega)]
  obtain ⟨bucket, hb, _, hslots⟩ := hall (i / 32) (by omega)
  have hp : i % 32 < (if 0 + i / 32 = (count - 1) / 32 then (count - 1) % 32 + 1 else 32) := by
    split_ifs with hc
    · omega
    · omega
  have hslot := hslots (i % 32) hp
  unfold Deque.flat_slot Deque.slot
  dsimp only
  rw [show (0 * 32 + 0 + i) / 32 = i / 32 by omega, show (0 * 32 + 0 + i) % 32 = i % 32 by omega,
    hb]
  dsimp only
  rw [hslot]

/-- Witness for C26: seventy copies of the value 5. -/
theorem C26_fill_constructor_witness :
    ∃ d : Deque Int, Deque.fill_ctor 70 5 = some d ∧ d.size = 70 ∧
      (∀ i : Nat, i < 70 → d.operator_subscript i = some 5) ∧
      d.container_capacity_ = (70 - 1) / 32 + 1 ∧
      (d.first_element_bucket_, d.first_element_position_) = (0, 0) ∧
      (d.last_element_bucket_, d.last_element_position_) =
        ((70 - 1) / 32, (70 - 1) % 32) :=
  C26_fill_constructor 70 5 (by decide)

namespace Deque

variable {α : Type}

theorem copy_assign_push_loop_repr {other : Deque α} {lb : List α} (hb : other.Repr lb) :
    ∀ (n k : Nat) (d : Deque α) (la : List α), d.Repr la → k + n = lb.length →
      ∃ d1 : Deque α,
        copy_assign_push_loop other n d
          (Iterator.of_flat
            (other.first_element_bucket_ * 32 + other.first_element_position_ + k)) =
          some d1 ∧
        d1.Repr (la ++ lb.drop k)
  | 0, k, d, la, hd, hk => by
    refine ⟨d, rfl, ?_⟩
    rw [List.drop_of_length_le (by omega), List.append_nil]
    exact hd
  | n + 1, k, d, la, hd, hk => by
    have hklt : k < lb.length := by omega
    have hderef : (Iterator.of_flat
        (other.first_element_bucket_ * 32 + other.first_element_position_ + k)).operator_deref
          other = some (lb[k]) := by
      rw [Iterator.operator_deref_of_flat, hb.elems k hklt]
      exact List.getElem?_eq_getElem hklt
    obtain ⟨d1, hpush, hrepr1⟩ := push_back_repr hd (lb[k])
    obtain ⟨d2, hloop, hrepr2⟩ :=
      copy_assign_push_loop_repr hb n (k + 1) d1 (la ++ [lb[k]]) hrepr1 (by omega)
    refine ⟨d2, ?_, ?_⟩
    · unfold copy_assign_push_loop
      simp only [hderef, hpush, Iterator.operator_inc_of_flat]
      exact hloop
    · have hdrop : lb.drop k = lb[k] :: lb.drop (k + 1) := List.drop_eq_getElem_cons hklt
      rw [hdrop]
      rw [List.append_assoc] at hrepr2
      exact hrepr2

theorem pop_front_loop_repr :
    ∀ (n : Nat) (d : Deque α) (l : List α), d.Repr l → n ≤ l.length →
      ∃ d1 : Deque α, pop_front_loop n d = some d1 ∧ d1.Repr (l.drop n)
  | 0, d, l, hd, _ => ⟨d, rfl, by rw [List.drop_zero]; exact hd⟩
  | n + 1, d, l, hd, hn => by
    have hne : d.size_ ≠ 0 := by
      have := hd.size_eq
      omega
    obtain ⟨d1, hpop, hrepr1⟩ := pop_front_repr hd hne
    obtain ⟨d2, hloop, hrepr2⟩ := pop_front_loop_repr n d1 (l.drop 1) hrepr1
      (by rw [List.length_drop]; omega)
    refine ⟨d2, ?_, ?_⟩
    · unfold pop_front_loop
      simp only [hpop]
      exact hloop
    · rw [List.drop_drop] at hrepr2
      have hidx : 1 + n = n + 1 := by omega
      rw [show n + 1 = 1 + n by omega]
      exact hrepr2

theorem operator_assign_copy_repr {a b : Deque α} {la lb : List α} (ha : a.Repr la)
    (hb : b.Repr lb) :
    ∃ a1 : Deque α, a.operator_assign_copy b false = some (a1, b) ∧ a1.Repr lb := by
  have hbegin : b.cbegin =
      Iterator.of_flat (b.first_element_bucket_ * 32 + b.first_element_position_ + 0) :=
    Iterator.ctor_eq_of_flat _ _ hb.first_lt
  obtain ⟨d1, hloop, hrepr1⟩ :=
    copy_assign_push_loop_repr hb b.size_ 0 a la ha (by rw [hb.size_eq]; omega)
  rw [List.drop_zero] at hrepr1
  obtain ⟨d2, hpop, hrepr2⟩ := pop_front_loop_repr a.size_ d1 (la ++ lb) hrepr1
    (by rw [ha.size_eq, List.length_append]; omega)
  refine ⟨d2, ?_, ?_⟩
  · unfold operator_assign_copy
    simp only [Bool.not_false, if_true, hbegin, hloop, hpop]
  · rw [ha.size_eq, List.drop_left] at hrepr2
    exact hrepr2

end Deque

/-- C25. For deques `a` and `b` reached from default-constructed ones by pushes and
pops (either may be empty), the copy assignment `a = b` between distinct objects, with
no construction or allocation failing, succeeds and leaves `a` with
`a.size() == b.size()` and `a[i] == b[i]` (a live element) for every `i < b.size()`,
and `b` unchanged; the self-assignment `a = a` leaves `a` unchanged. -/
theorem C25_copy_assignment {α : Type} (ops_a ops_b : List (Op α))
    (ha : (Deque.default_ctor : Deque α).no_pop_on_empty ops_a = true)
    (hb : (Deque.default_ctor : Deque α).no_pop_on_empty ops_b = true) :
    ∃ a b : Deque α, Deque.default_ctor.run ops_a = some a ∧
      Deque.default_ctor.run ops_b = some b ∧
      (∃ a1 : Deque α, a.operator_assign_copy b false = some (a1, b) ∧
        a1.size = b.size ∧
        ∀ i : Nat, i < b.size → ∃ v : α,
          a1.operator_subscript i = some v ∧ b.operator_subscript i = some v) ∧
      a.operator_assign_copy a true = some (a, a) := by
  obtain ⟨a, hruna, hrepra, _⟩ := Deque.run_repr ops_a _ [] Deque.default_ctor_repr ha
  obtain ⟨b, hrunb, hreprb, _⟩ := Deque.run_repr ops_b _ [] Deque.default_ctor_repr hb
  obtain ⟨a1, hassign, hrepr1⟩ := Deque.operator_assign_copy_repr hrepra hreprb
  refine ⟨a, b, hruna, hrunb, ⟨a1, hassign, ?_, ?_⟩, rfl⟩
  · show a1.size_ = b.size_
    rw [hrepr1.size_eq, hreprb.size_eq]
  · intro i hi
    have hlt : i < (plain_list_run [] ops_b).length := by
      rw [← hreprb.size_eq]
      exact hi
    refine ⟨(plain_list_run [] ops_b)[i], ?_, ?_⟩
    · rw [Deque.operator_subscript_eq_flat a1 hrepr1.first_lt, hrepr1.elems i hlt]
      exact List.getElem?_eq_getElem hlt
    · rw [Deque.operator_subscript_eq_flat b hreprb.first_lt, hreprb.elems i hlt]
      exact List.getElem?_eq_getElem hlt

/-- Witness for C25: `a` holds `[0, 1]`, `b` holds `[5, 6, 7]`. -/
theorem C25_copy_assignment_witness :
    ∃ a b : Deque Int,
      Deque.default_ctor.run [Op.push_back 1, Op.push_front 0] = some a ∧
      Deque.default_ctor.run [Op.push_back 5, Op.push_back 6, Op.push_back 7] = some b ∧
      (∃ a1 : Deque Int, a.operator_assign_copy b false = some (a1, b) ∧
        a1.size = b.size ∧
        ∀ i : Nat, i < b.size → ∃ v : Int,
          a1.operator_subscript i = some v ∧ b.operator_subscript i = some v) ∧
      a.operator_assign_copy a true = some (a, a) :=
  C25_copy_assignment [Op.push_back 1, Op.push_front 0]
    [Op.push_back 5, Op.push_back 6, Op.push_back 7] (by decide) (by decide)
